import Mathlib

/-!
Verification development for the car-park queueing simulator
(`src/AppCpp/carpark_queueing_cpp.cpp`).

The C++ program is a single tick loop (`modelrun`) over these pieces of
state: a vector `carsparked_q` of remaining service times, integer
counters `count_arrivals`, `carsqueued`, `queue`, `queuetime`, a double
`queuetest` holding the previously probed queued-fraction, and two
fixed-size histogram arrays.  Each tick (loop index `i` from 1 to
`cyclecount * 3600` with `cyclecount = 10000`):

  1. probe: when `i > 3600*100` and `i % 36000 == 0`, break with
     `hours = i / 3600.0` if `|queuetest - carsqueued/count_arrivals| < 1e-5`
     or `i == 3000*3600`, else store the current ratio in `queuetest`;
  2. sample: increment the occupancy histogram at `max(size-1, 0)` and
     the queue histogram at `queue`, add `queue` to `queuetime`;
  3. age: decrement every remaining time; if the front reaches 0 erase
     it and, when `queue > 0`, push a fresh car with `servicetime` and
     decrement `queue`;
  4. arrive: draw uniformly from [1,3600]; on a draw at most
     `arrivalrate`, increment `count_arrivals` and either push a car
     (when `size-1 < spaces`), queue it (when `size-1 == spaces`) or
     print an error (when `size-1 > spaces`).

The embedding below follows the source line by line.  Machine `int`s
become `Nat` (counters that only grow, and the configuration, which the
spec constrains to positive integers) or `Int` (the remaining times and
`queue`, which the source compares against 0).  The C++ `double`
`queuetest` and the ratio `carsqueued/count_arrivals` are modelled as
`Option Rat`: `none` stands for the IEEE NaN / infinity produced by a
zero `count_arrivals`, for which every `<` comparison is false, exactly
as for NaN.  Histograms are total functions `Nat → Nat`; the source's
fixed array bound is kept as the separate value `histBound`, and the
in-bounds question is stated about the written indices.
-/

namespace Carpark

/-- The three positive-integer inputs of `modelrun`. -/
structure Config where
  arrivalrate : Nat
  servicetime : Nat
  spaces : Nat
deriving Repr, DecidableEq

/-- The mutable state of the tick loop of `modelrun`. -/
@[ext] structure SimState where
  count_arrivals : Nat
  carsparked_q : List Int
  carsqueued : Nat
  queue : Int
  queuetime : Int
  queuetest : Option Rat
  count_carsparked_hist : Nat → Nat
  count_carsqueued_hist : Nat → Nat

/-- Size of the two histogram vectors:
`arrivalrate * (servicetime / 600) + 200` with C++ integer division. -/
def histBound (cfg : Config) : Nat :=
  cfg.arrivalrate * (cfg.servicetime / 600) + 200

/-- Initial state at the top of `modelrun`: all counters zero, no parked
cars, `queuetest = 0.0`, zero-initialised histograms. -/
def initState : SimState :=
  { count_arrivals := 0
    carsparked_q := []
    carsqueued := 0
    queue := 0
    queuetime := 0
    queuetest := some 0
    count_carsparked_hist := fun _ => 0
    count_carsqueued_hist := fun _ => 0 }

/-- Point increment of a histogram. -/
def incAt (h : Nat → Nat) (i : Nat) : Nat → Nat :=
  fun j => if j = i then h j + 1 else h j

/-- Index written into the occupancy histogram:
`max(static_cast<int>(carsparked_q.size()) - 1, 0)`. -/
def sampleIdxOcc (st : SimState) : Nat :=
  (max ((st.carsparked_q.length : Int) - 1) 0).toNat

/-- Index written into the queue histogram: `queue` used as a vector
index (the source relies on it being non-negative). -/
def sampleIdxQueue (st : SimState) : Nat :=
  st.queue.toNat

/-- Step 2 of a tick: record utilisation into both histograms and add
the queue length to `queuetime`. -/
def samplePhase (st : SimState) : SimState :=
  { st with
    count_carsparked_hist := incAt st.count_carsparked_hist (sampleIdxOcc st)
    count_carsqueued_hist := incAt st.count_carsqueued_hist (sampleIdxQueue st)
    queuetime := st.queuetime + st.queue }

/-- Step 3 of a tick: decrement every parked car; if the front reaches
0, erase it and, when the queue is non-empty, admit one queued car with
a fresh `servicetime`. -/
def agePhase (servicetime : Nat) (st : SimState) : SimState :=
  if st.carsparked_q.isEmpty then st
  else if (st.carsparked_q.map (fun t => t - 1)).head? = some 0 then
    if 0 < st.queue then
      { st with
        carsparked_q :=
          (st.carsparked_q.map (fun t => t - 1)).tail ++ [(servicetime : Int)]
        queue := st.queue - 1 }
    else
      { st with carsparked_q := (st.carsparked_q.map (fun t => t - 1)).tail }
  else
    { st with carsparked_q := st.carsparked_q.map (fun t => t - 1) }

/-- Step 4 of a tick: on an arrival (`draw <= arrivalrate`) increment
`count_arrivals`, then park when `size - 1 < spaces`, queue when
`size - 1 == spaces`, and (error branch, state unchanged apart from the
arrival counter) do nothing when `size - 1 > spaces`. -/
def arrivePhase (cfg : Config) (st : SimState) (d : Nat) : SimState :=
  if d ≤ cfg.arrivalrate then
    if (st.carsparked_q.length : Int) - 1 < (cfg.spaces : Int) then
      { st with
        count_arrivals := st.count_arrivals + 1
        carsparked_q := st.carsparked_q ++ [(cfg.servicetime : Int)] }
    else if (st.carsparked_q.length : Int) - 1 = (cfg.spaces : Int) then
      { st with
        count_arrivals := st.count_arrivals + 1
        queue := st.queue + 1
        carsqueued := st.carsqueued + 1 }
    else
      { st with count_arrivals := st.count_arrivals + 1 }
  else
    st

/-- Steps 2-4 of tick `i` for the draw `d` of that tick. -/
def tickBody (cfg : Config) (st : SimState) (d : Nat) : SimState :=
  arrivePhase cfg (agePhase cfg.servicetime (samplePhase st)) d

/-- `i > 3600 * 100 && i % 36000 == 0`: the gate of the convergence
probe. -/
def probeCondB (i : Nat) : Bool :=
  decide (3600 * 100 < i) && decide (i % 36000 = 0)

/-- The double `static_cast<double>(carsqueued) / count_arrivals`:
`none` models the NaN / infinity obtained when `count_arrivals == 0`. -/
def ratioOpt (carsqueued count_arrivals : Nat) : Option Rat :=
  if count_arrivals = 0 then none
  else some ((carsqueued : Rat) / (count_arrivals : Rat))

/-- `abs(queuetest - ratio) < 1e-5`; any comparison involving the NaN
value `none` is false, as for IEEE doubles. -/
def diffLt (queuetest r : Option Rat) : Bool :=
  match queuetest, r with
  | some a, some b => decide (|a - b| < (1 : Rat) / 100000)
  | _, _ => false

/-- The break condition inside the probe:
`abs(queuetest - carsqueued/count_arrivals) < 1e-5 || i == 3000*3600`. -/
def stopCheckB (st : SimState) (i : Nat) : Bool :=
  diffLt st.queuetest (ratioOpt st.carsqueued st.count_arrivals)
    || decide (i = 3000 * 3600)

/-- `queuetest = static_cast<double>(carsqueued) / count_arrivals`,
executed at a probe that does not break. -/
def probeUpdate (st : SimState) : SimState :=
  { st with queuetest := ratioOpt st.carsqueued st.count_arrivals }

/-- State entering tick `n + 1`, ignoring the break (the break leaves
the state untouched, so every state the real loop visits is a
`stateAt`; `stateAt` merely keeps ticking past the break tick). -/
def stateAt (cfg : Config) (draws : Nat → Nat) : Nat → SimState
  | 0 => initState
  | n + 1 =>
    let i := n + 1
    let st := stateAt cfg draws n
    let st1 := if probeCondB i && !stopCheckB st i then probeUpdate st else st
    tickBody cfg st1 (draws i)

/-- Tick `i` breaks the loop: the probe gate holds and the break
condition holds on the state entering tick `i`. -/
def stopsAtB (cfg : Config) (draws : Nat → Nat) (i : Nat) : Bool :=
  match i with
  | 0 => false
  | n + 1 => probeCondB (n + 1) && stopCheckB (stateAt cfg draws n) (n + 1)

/-- Result of `modelrun`'s loop: final state, `hours`, and the tick at
which the loop broke (`none` would mean the `for` bound was exhausted
without a break, in which case `hours` keeps its initial 0). -/
structure RunResult where
  final : SimState
  hours : Rat
  stopTick : Option Nat

/-- The loop `for (int i = 1; i <= cyclecount*3600; ++i)` with
`fuel` iterations left, mirroring the probe-break structure. -/
def runAux (cfg : Config) (draws : Nat → Nat) :
    Nat → Nat → SimState → RunResult
  | 0, _, st => ⟨st, 0, none⟩
  | fuel + 1, i, st =>
    if probeCondB i then
      if stopCheckB st i then
        ⟨st, (i : Rat) / 3600, some i⟩
      else
        runAux cfg draws fuel (i + 1) (tickBody cfg (probeUpdate st) (draws i))
    else
      runAux cfg draws fuel (i + 1) (tickBody cfg st (draws i))

/-- The whole simulation loop of `modelrun`: `cyclecount = 10000`
bounds the loop at `10000 * 3600` iterations starting from `i = 1`. -/
def modelrun (cfg : Config) (draws : Nat → Nat) : RunResult :=
  runAux cfg draws (10000 * 3600) 1 initState

/-- `cyclecount = static_cast<int>(hours)` after the loop. -/
def cyclecountOf (r : RunResult) : Nat :=
  (⌊r.hours⌋).toNat

/-- The scan of the `for` loop of `percentageoftime`: index of the
first element that is at least `percent`, if any. -/
def firstGE (percent : Int) : List Int → Option Nat
  | [] => none
  | v :: rest =>
    if percent ≤ v then some 0
    else (firstGE percent rest).map (fun i => i + 1)

/-- `percentageoftime`: first index of the vector whose value is at
least `percent`, or `-1` when there is none. -/
def percentageoftime (percent : Int) (list : List Int) : Int :=
  match firstGE percent list with
  | some idx => (idx : Int)
  | none => -1

/-- Value of the in-place `partial_sum` at index `j`: the sum of the
histogram entries up to and including `j`. -/
def cumulAt (h : Nat → Nat) (j : Nat) : Nat :=
  ∑ k ∈ Finset.range (j + 1), h k

/-- `static_cast<int>(round(100.0 * item / D))` for non-negative
`item = c` and positive `D`, in exact integer arithmetic:
`⌊100 c / D + 1/2⌋`. -/
def pctRound (c D : Nat) : Nat :=
  (200 * c + D) / (2 * D)

/-- The percentage table built after the loop: `partial_sum` followed,
when `cyclecount > 0`, by the rescale of every entry to a rounded
percentage of `cyclecount * 3600` ticks. -/
def toPercents (h : Nat → Nat) (B D : Nat) : List Int :=
  if 0 < D then
    (List.range B).map (fun j => (pctRound (cumulAt h j) D : Int))
  else
    (List.range B).map (fun j => (cumulAt h j : Int))

/-- The occupancy percentage table of a finished run. -/
def occTable (cfg : Config) (r : RunResult) : List Int :=
  toPercents r.final.count_carsparked_hist (histBound cfg) (cyclecountOf r * 3600)

/-- The queue percentage table of a finished run. -/
def queueTable (cfg : Config) (r : RunResult) : List Int :=
  toPercents r.final.count_carsqueued_hist (histBound cfg) (cyclecountOf r * 3600)

/-- The percentile set printed by `modelrun`. -/
def percentilesList : List Int :=
  [10, 20, 30, 40, 50, 60, 70, 80, 90, 95, 98, 99]

/-- The cap branch of the report: `hours == 3000` selects the
"0.00001 stability not found" message. -/
def capReportB (r : RunResult) : Bool :=
  decide (r.hours = 3000)

/-- The draw stream used in the concrete counterexample runs: the
uniform draw over [1,3600] coming out as 1 every tick. -/
def dOnes : Nat → Nat := fun _ => 1

/-- Whether the age phase of a tick pushes a queued car into the car
park (front expired and queue non-empty). -/
def agePushB (st : SimState) : Bool :=
  !st.carsparked_q.isEmpty
    && ((st.carsparked_q.map (fun t => t - 1)).head? == some 0)
    && decide (0 < st.queue)

/-- Whether the arrive phase of a tick pushes the arriving car, given
the state `st2` it runs on (the state after the age phase). -/
def arrivePushB (cfg : Config) (st2 : SimState) (d : Nat) : Bool :=
  decide (d ≤ cfg.arrivalrate)
    && decide ((st2.carsparked_q.length : Int) - 1 < (cfg.spaces : Int))

/-- Whether the arrive phase queues the arriving car. -/
def arriveQueueB (cfg : Config) (st2 : SimState) (d : Nat) : Bool :=
  decide (d ≤ cfg.arrivalrate)
    && decide ((st2.carsparked_q.length : Int) - 1 = (cfg.spaces : Int))

/-- Whether the `"Error: More cars than spaces allowed!"` branch runs. -/
def errorBranchB (cfg : Config) (st2 : SimState) (d : Nat) : Bool :=
  decide (d ≤ cfg.arrivalrate)
    && decide ((cfg.spaces : Int) < (st2.carsparked_q.length : Int) - 1)

/-- Number of cars pushed into `carsparked_q` during one tick on the
entering state `st`. -/
def tickPushes (cfg : Config) (st : SimState) (d : Nat) : Nat :=
  (if agePushB st then 1 else 0)
    + (if arrivePushB cfg (agePhase cfg.servicetime (samplePhase st)) d then 1 else 0)

/-- The inductive invariant of the tick loop needed by the capacity
claims: the car park holds at most `spaces + 1` cars, the queue counter
is non-negative, and a non-empty queue forces a full car park (which is
what makes a second push in one tick impossible). -/
def Inv0 (cfg : Config) (st : SimState) : Prop :=
  st.carsparked_q.length ≤ cfg.spaces + 1 ∧ 0 ≤ st.queue ∧
  (0 < st.queue → st.carsparked_q.length = cfg.spaces + 1)

/-- The sorted-times invariant: on reachable states the remaining times
are strictly increasing from front to back and lie in
`[1, servicetime]`, so no two cars ever share a remaining time. -/
def Sorted3 (cfg : Config) (st : SimState) : Prop :=
  st.carsparked_q.Pairwise (· < ·) ∧
  ∀ x ∈ st.carsparked_q, 1 ≤ x ∧ x ≤ (cfg.servicetime : Int)

/-- Histogram with `k` ticks recorded at index 0 and none elsewhere:
the shape of both histograms in a run that never parks a car. -/
def zeroHist (k : Nat) : Nat → Nat :=
  fun j => if j = 0 then k else 0

/-- State entering tick `k + 1` of a run with `arrivalrate = 0`: no
arrivals ever, empty car park, all mass of both histograms at index 0;
`queuetest` holds the initial `0.0` until the first probe at tick
396000 replaces it with the NaN of `0 / 0`. -/
def zeroRunState (k : Nat) : SimState :=
  { count_arrivals := 0
    carsparked_q := []
    carsqueued := 0
    queue := 0
    queuetime := 0
    queuetest := if k < 396000 then some 0 else none
    count_carsparked_hist := zeroHist k
    count_carsqueued_hist := zeroHist k }

/-- Sum of the first `B` histogram entries: the total mass a vector of
size `B` would hold when every write landed below `B`. -/
def histSum (h : Nat → Nat) (B : Nat) : Nat :=
  ∑ j ∈ Finset.range B, h j

/-- State entering tick `k + 1` of the run with `arrivalrate = 3600`,
`servicetime = 1`, `spaces = 5` and every draw 1 (for `k ≥ 1`): one
arrival per tick, each car departing after exactly one tick, so the
park holds the single car `[1]`, nothing ever queues, and both
histograms hold all `k` samples at index 0. -/
def c7State (k : Nat) : SimState :=
  { count_arrivals := k
    carsparked_q := [(1 : Int)]
    carsqueued := 0
    queue := 0
    queuetime := 0
    queuetest := some 0
    count_carsparked_hist := zeroHist k
    count_carsqueued_hist := zeroHist k }

/-- Unfolding of `stateAt` at a successor tick. -/
theorem stateAt_succ (cfg : Config) (draws : Nat → Nat) (n : Nat) :
    stateAt cfg draws (n + 1)
      = tickBody cfg
          (if probeCondB (n + 1) && !stopCheckB (stateAt cfg draws n) (n + 1)
            then probeUpdate (stateAt cfg draws n)
            else stateAt cfg draws n)
          (draws (n + 1)) := rfl

/-! ## Basic state invariant -/

theorem samplePhase_carsparked (st : SimState) :
    (samplePhase st).carsparked_q = st.carsparked_q := rfl

theorem samplePhase_queue (st : SimState) :
    (samplePhase st).queue = st.queue := rfl

theorem probeUpdate_carsparked (st : SimState) :
    (probeUpdate st).carsparked_q = st.carsparked_q := rfl

theorem probeUpdate_queue (st : SimState) :
    (probeUpdate st).queue = st.queue := rfl

theorem inv0_samplePhase (cfg : Config) (st : SimState) (h : Inv0 cfg st) :
    Inv0 cfg (samplePhase st) := h

theorem inv0_probeUpdate (cfg : Config) (st : SimState) (h : Inv0 cfg st) :
    Inv0 cfg (probeUpdate st) := h

theorem agePhase_empty (t : Nat) (st : SimState)
    (h : st.carsparked_q.isEmpty = true) : agePhase t st = st := by
  unfold agePhase
  rw [if_pos h]

theorem agePhase_expire_refill (t : Nat) (st : SimState)
    (hne : ¬ st.carsparked_q.isEmpty = true)
    (hhead : (st.carsparked_q.map (fun x => x - 1)).head? = some 0)
    (hqpos : 0 < st.queue) :
    agePhase t st =
      { st with
        carsparked_q := (st.carsparked_q.map (fun x => x - 1)).tail ++ [(t : Int)]
        queue := st.queue - 1 } := by
  unfold agePhase
  rw [if_neg hne, if_pos hhead, if_pos hqpos]

theorem agePhase_expire_norefill (t : Nat) (st : SimState)
    (hne : ¬ st.carsparked_q.isEmpty = true)
    (hhead : (st.carsparked_q.map (fun x => x - 1)).head? = some 0)
    (hqz : ¬ 0 < st.queue) :
    agePhase t st =
      { st with carsparked_q := (st.carsparked_q.map (fun x => x - 1)).tail } := by
  unfold agePhase
  rw [if_neg hne, if_pos hhead, if_neg hqz]

theorem agePhase_noexpire (t : Nat) (st : SimState)
    (hne : ¬ st.carsparked_q.isEmpty = true)
    (hhead : ¬ (st.carsparked_q.map (fun x => x - 1)).head? = some 0) :
    agePhase t st =
      { st with carsparked_q := st.carsparked_q.map (fun x => x - 1) } := by
  unfold agePhase
  rw [if_neg hne, if_neg hhead]

theorem arrivePhase_noarrival (cfg : Config) (st : SimState) (d : Nat)
    (h : ¬ d ≤ cfg.arrivalrate) : arrivePhase cfg st d = st := by
  unfold arrivePhase
  rw [if_neg h]

theorem arrivePhase_park (cfg : Config) (st : SimState) (d : Nat)
    (hd : d ≤ cfg.arrivalrate)
    (hlt : (st.carsparked_q.length : Int) - 1 < (cfg.spaces : Int)) :
    arrivePhase cfg st d =
      { st with
        count_arrivals := st.count_arrivals + 1
        carsparked_q := st.carsparked_q ++ [(cfg.servicetime : Int)] } := by
  unfold arrivePhase
  rw [if_pos hd, if_pos hlt]

theorem arrivePhase_queued (cfg : Config) (st : SimState) (d : Nat)
    (hd : d ≤ cfg.arrivalrate)
    (heq : (st.carsparked_q.length : Int) - 1 = (cfg.spaces : Int)) :
    arrivePhase cfg st d =
      { st with
        count_arrivals := st.count_arrivals + 1
        queue := st.queue + 1
        carsqueued := st.carsqueued + 1 } := by
  have hnlt : ¬ (st.carsparked_q.length : Int) - 1 < (cfg.spaces : Int) := by omega
  unfold arrivePhase
  rw [if_pos hd, if_neg hnlt, if_pos heq]

theorem arrivePhase_error (cfg : Config) (st : SimState) (d : Nat)
    (hd : d ≤ cfg.arrivalrate)
    (hgt : (cfg.spaces : Int) < (st.carsparked_q.length : Int) - 1) :
    arrivePhase cfg st d =
      { st with count_arrivals := st.count_arrivals + 1 } := by
  have hnlt : ¬ (st.carsparked_q.length : Int) - 1 < (cfg.spaces : Int) := by omega
  have hne : ¬ (st.carsparked_q.length : Int) - 1 = (cfg.spaces : Int) := by omega
  unfold arrivePhase
  rw [if_pos hd, if_neg hnlt, if_neg hne]

theorem inv0_agePhase (cfg : Config) (t : Nat) (st : SimState)
    (h : Inv0 cfg st) : Inv0 cfg (agePhase t st) := by
  obtain ⟨hlen, hq, hlink⟩ := h
  by_cases hne : st.carsparked_q.isEmpty = true
  · rw [agePhase_empty t st hne]
    exact ⟨hlen, hq, hlink⟩
  · have hpos : 0 < st.carsparked_q.length := by
      cases hL : st.carsparked_q with
      | nil => rw [hL] at hne; simp at hne
      | cons a l => simp [hL]
    by_cases hhead : (st.carsparked_q.map (fun x => x - 1)).head? = some 0
    · by_cases hqpos : 0 < st.queue
      · rw [agePhase_expire_refill t st hne hhead hqpos]
        have hfull := hlink hqpos
        unfold Inv0
        dsimp only
        simp only [List.length_append, List.length_tail, List.length_map,
          List.length_cons, List.length_nil]
        omega
      · rw [agePhase_expire_norefill t st hne hhead hqpos]
        unfold Inv0
        dsimp only
        simp only [List.length_tail, List.length_map]
        omega
    · rw [agePhase_noexpire t st hne hhead]
      unfold Inv0
      dsimp only
      simp only [List.length_map]
      exact ⟨hlen, hq, hlink⟩

theorem inv0_arrivePhase (cfg : Config) (st : SimState) (d : Nat)
    (h : Inv0 cfg st) : Inv0 cfg (arrivePhase cfg st d) := by
  obtain ⟨hlen, hq, hlink⟩ := h
  by_cases hd : d ≤ cfg.arrivalrate
  · by_cases hlt : (st.carsparked_q.length : Int) - 1 < (cfg.spaces : Int)
    · rw [arrivePhase_park cfg st d hd hlt]
      unfold Inv0
      dsimp only
      simp only [List.length_append, List.length_cons, List.length_nil]
      refine ⟨by omega, hq, ?_⟩
      intro hq2
      have := hlink hq2
      omega
    · by_cases heq : (st.carsparked_q.length : Int) - 1 = (cfg.spaces : Int)
      · rw [arrivePhase_queued cfg st d hd heq]
        unfold Inv0
        dsimp only
        exact ⟨hlen, by omega, fun _ => by omega⟩
      · have hgt : (cfg.spaces : Int) < (st.carsparked_q.length : Int) - 1 := by
          omega
        rw [arrivePhase_error cfg st d hd hgt]
        exact ⟨hlen, hq, hlink⟩
  · rw [arrivePhase_noarrival cfg st d hd]
    exact ⟨hlen, hq, hlink⟩

theorem inv0_tickBody (cfg : Config) (st : SimState) (d : Nat)
    (h : Inv0 cfg st) : Inv0 cfg (tickBody cfg st d) :=
  inv0_arrivePhase cfg _ d (inv0_agePhase cfg _ _ (inv0_samplePhase cfg st h))

theorem inv0_stateAt (cfg : Config) (draws : Nat → Nat) (n : Nat) :
    Inv0 cfg (stateAt cfg draws n) := by
  induction n with
  | zero => exact ⟨by simp [stateAt, initState], by simp [stateAt, initState],
      by simp [stateAt, initState]⟩
  | succ n ih =>
    show Inv0 cfg (tickBody cfg _ _)
    apply inv0_tickBody
    split
    · exact inv0_probeUpdate cfg _ ih
    · exact ih

/-! ## Sorted-times invariant

On reachable states the remaining times are strictly increasing from
front to back and lie in `[1, servicetime]`: at most one car is pushed
per tick (see `Inv0`), so no two cars share a remaining time, the
front always has the strictly smallest one, and it is erased in the
very tick its time reaches 0. -/

theorem sorted3_arrivePhase (cfg : Config) (st : SimState) (d : Nat)
    (hst : 1 ≤ cfg.servicetime)
    (hpair : st.carsparked_q.Pairwise (· < ·))
    (helem : ∀ x ∈ st.carsparked_q, 1 ≤ x ∧ x ≤ (cfg.servicetime : Int))
    (hstrict : (st.carsparked_q.length : Int) - 1 < (cfg.spaces : Int) →
      ∀ x ∈ st.carsparked_q, x < (cfg.servicetime : Int)) :
    Sorted3 cfg (arrivePhase cfg st d) := by
  by_cases hd : d ≤ cfg.arrivalrate
  · by_cases hlt : (st.carsparked_q.length : Int) - 1 < (cfg.spaces : Int)
    · rw [arrivePhase_park cfg st d hd hlt]
      constructor
      · show (st.carsparked_q ++ [(cfg.servicetime : Int)]).Pairwise (· < ·)
        rw [List.pairwise_append]
        refine ⟨hpair, by simp, ?_⟩
        intro a ha b hb
        simp only [List.mem_singleton] at hb
        subst hb
        exact hstrict hlt a ha
      · show ∀ x ∈ st.carsparked_q ++ [(cfg.servicetime : Int)], _
        intro x hx
        rw [List.mem_append] at hx
        rcases hx with hx | hx
        · exact helem x hx
        · simp only [List.mem_singleton] at hx
          subst hx
          exact ⟨by exact_mod_cast hst, le_refl _⟩
    · by_cases heq : (st.carsparked_q.length : Int) - 1 = (cfg.spaces : Int)
      · rw [arrivePhase_queued cfg st d hd heq]
        exact ⟨hpair, helem⟩
      · rw [arrivePhase_error cfg st d hd (by omega)]
        exact ⟨hpair, helem⟩
  · rw [arrivePhase_noarrival cfg st d hd]
    exact ⟨hpair, helem⟩

theorem sorted3_tickBody (cfg : Config) (st : SimState) (d : Nat)
    (hst : 1 ≤ cfg.servicetime) (h0 : Inv0 cfg st) (h3 : Sorted3 cfg st) :
    Sorted3 cfg (tickBody cfg st d) := by
  obtain ⟨hpair, helem⟩ := h3
  obtain ⟨hlen, hq, hlink⟩ := h0
  unfold tickBody
  by_cases hne : (samplePhase st).carsparked_q.isEmpty = true
  · rw [agePhase_empty _ _ hne]
    have hnil : st.carsparked_q = [] := by
      rw [← List.isEmpty_iff]
      exact hne
    apply sorted3_arrivePhase cfg (samplePhase st) d hst hpair helem
    intro _ x hx
    rw [show (samplePhase st).carsparked_q = st.carsparked_q from rfl, hnil] at hx
    exact absurd hx (List.not_mem_nil x)
  · obtain ⟨a, rest, hL⟩ : ∃ a rest, st.carsparked_q = a :: rest := by
      cases hcc : st.carsparked_q with
      | nil =>
        exfalso
        apply hne
        rw [show (samplePhase st).carsparked_q = st.carsparked_q from rfl, hcc]
        rfl
      | cons a rest => exact ⟨a, rest, rfl⟩
    have ha1 : 1 ≤ a ∧ a ≤ (cfg.servicetime : Int) :=
      helem a (by rw [hL]; exact List.mem_cons_self a rest)
    have hrest2 : ∀ x ∈ rest, a < x ∧ 1 ≤ x ∧ x ≤ (cfg.servicetime : Int) := by
      intro x hx
      have hmem : x ∈ st.carsparked_q := by
        rw [hL]
        exact List.mem_cons_of_mem a hx
      have h1 := helem x hmem
      have h2 : a < x := by
        have hp := hpair
        rw [hL, List.pairwise_cons] at hp
        exact hp.1 x hx
      exact ⟨h2, h1⟩
    have hpair_rest : rest.Pairwise (· < ·) := by
      have hp := hpair
      rw [hL, List.pairwise_cons] at hp
      exact hp.2
    have hpair_mapped : (rest.map (fun x => x - 1)).Pairwise (· < ·) :=
      List.Pairwise.map _ (fun a b h => by omega) hpair_rest
    have htail : ((samplePhase st).carsparked_q.map (fun x => x - 1)).tail
        = rest.map (fun x => x - 1) := by
      rw [show (samplePhase st).carsparked_q = st.carsparked_q from rfl, hL]
      rfl
    by_cases hhead : ((samplePhase st).carsparked_q.map (fun x => x - 1)).head?
        = some 0
    · have ha0 : a = 1 := by
        have hh := hhead
        rw [show (samplePhase st).carsparked_q = st.carsparked_q from rfl, hL] at hh
        simp only [List.map_cons, List.head?_cons, Option.some.injEq] at hh
        omega
      by_cases hqpos : 0 < (samplePhase st).queue
      · rw [agePhase_expire_refill _ _ hne hhead hqpos]
        apply sorted3_arrivePhase cfg _ d hst ?_ ?_ ?_
        · show (((samplePhase st).carsparked_q.map (fun x => x - 1)).tail
              ++ [(cfg.servicetime : Int)]).Pairwise (· < ·)
          rw [htail, List.pairwise_append]
          refine ⟨hpair_mapped, by simp, ?_⟩
          intro x hx b hb
          simp only [List.mem_singleton] at hb
          subst hb
          rw [List.mem_map] at hx
          obtain ⟨y, hy, hxy⟩ := hx
          have := hrest2 y hy
          omega
        · show ∀ x ∈ ((samplePhase st).carsparked_q.map (fun z => z - 1)).tail
              ++ [(cfg.servicetime : Int)], _
          intro x hx
          rw [htail, List.mem_append] at hx
          rcases hx with hx | hx
          · rw [List.mem_map] at hx
            obtain ⟨y, hy, hxy⟩ := hx
            have := hrest2 y hy
            constructor <;> omega
          · simp only [List.mem_singleton] at hx
            subst hx
            exact ⟨by exact_mod_cast hst, le_refl _⟩
        · intro hlt
          exfalso
          have hfull : st.carsparked_q.length = cfg.spaces + 1 := hlink hqpos
          have hL2len : (((samplePhase st).carsparked_q.map (fun x => x - 1)).tail
              ++ [(cfg.servicetime : Int)]).length = st.carsparked_q.length := by
            rw [htail]
            simp only [List.length_append, List.length_map, List.length_cons,
              List.length_nil, hL]
          rw [hL2len, hfull] at hlt
          push_cast at hlt
          omega
      · rw [agePhase_expire_norefill _ _ hne hhead hqpos]
        apply sorted3_arrivePhase cfg _ d hst ?_ ?_ ?_
        · show (((samplePhase st).carsparked_q.map (fun x => x - 1)).tail).Pairwise
              (· < ·)
          rw [htail]
          exact hpair_mapped
        · show ∀ x ∈ ((samplePhase st).carsparked_q.map (fun z => z - 1)).tail, _
          intro x hx
          rw [htail, List.mem_map] at hx
          obtain ⟨y, hy, hxy⟩ := hx
          have := hrest2 y hy
          constructor <;> omega
        · intro _ x hx
          rw [htail, List.mem_map] at hx
          obtain ⟨y, hy, hxy⟩ := hx
          have := hrest2 y hy
          omega
    · rw [agePhase_noexpire _ _ hne hhead]
      have ha2 : 2 ≤ a := by
        have hh := hhead
        rw [show (samplePhase st).carsparked_q = st.carsparked_q from rfl, hL] at hh
        simp only [List.map_cons, List.head?_cons, Option.some.injEq] at hh
        omega
      have hmem_all : ∀ x ∈ st.carsparked_q, 2 ≤ x ∧ x ≤ (cfg.servicetime : Int) := by
        intro x hx
        rw [hL, List.mem_cons] at hx
        rcases hx with hx | hx
        · subst hx
          exact ⟨ha2, ha1.2⟩
        · have := hrest2 x hx
          constructor <;> omega
      apply sorted3_arrivePhase cfg _ d hst ?_ ?_ ?_
      · show ((samplePhase st).carsparked_q.map (fun x => x - 1)).Pairwise (· < ·)
        exact List.Pairwise.map _ (fun a b h => by omega) hpair
      · show ∀ x ∈ (samplePhase st).carsparked_q.map (fun z => z - 1), _
        intro x hx
        rw [show (samplePhase st).carsparked_q = st.carsparked_q from rfl,
          List.mem_map] at hx
        obtain ⟨y, hy, hxy⟩ := hx
        have := hmem_all y hy
        constructor <;> omega
      · intro _ x hx
        rw [show (samplePhase st).carsparked_q = st.carsparked_q from rfl,
          List.mem_map] at hx
        obtain ⟨y, hy, hxy⟩ := hx
        have := hmem_all y hy
        omega

theorem sorted3_stateAt (cfg : Config) (draws : Nat → Nat) (n : Nat)
    (hst : 1 ≤ cfg.servicetime) : Sorted3 cfg (stateAt cfg draws n) := by
  induction n with
  | zero => exact ⟨by simp [stateAt, initState], by simp [stateAt, initState]⟩
  | succ n ih =>
    show Sorted3 cfg (tickBody cfg _ _)
    apply sorted3_tickBody cfg _ _ hst
    · split
      · exact inv0_probeUpdate cfg _ (inv0_stateAt cfg draws n)
      · exact inv0_stateAt cfg draws n
    · split
      · exact ih
      · exact ih

theorem sampleIdxOcc_le (cfg : Config) (st : SimState)
    (h : st.carsparked_q.length ≤ cfg.spaces + 1) :
    sampleIdxOcc st ≤ cfg.spaces := by
  unfold sampleIdxOcc
  rcases max_cases ((st.carsparked_q.length : Int) - 1) 0 with ⟨heq, _⟩ | ⟨heq, _⟩ <;>
    rw [heq] <;> omega

/-! ## Claim C1

The spec claims `len(occupancy) <= spaceCount` on every tick.  The
code's admission gate is `size - 1 < spaces`, which admits one car
beyond `spaces`: with `arrivalrate = 1`, `servicetime = 3`,
`spaceCount = 1` and an arrival draw on both of the first two ticks,
the car park holds 2 cars entering tick 3.  The invariant that does
hold is `len(occupancy) <= spaceCount + 1` (and `queueLength >= 0`). -/

/-- C1, counterexample: after two ticks of the run with
`arrivalrate = 1`, `servicetime = 3`, `spaces = 1` and every draw
equal to 1, the occupancy list holds 2 cars, exceeding
`spaceCount = 1`. -/
theorem c1_counterexample :
    (stateAt ⟨1, 3, 1⟩ dOnes 2).carsparked_q.length = 2 ∧
    ¬ ((stateAt ⟨1, 3, 1⟩ dOnes 2).carsparked_q.length ≤ (Config.mk 1 3 1).spaces) := by
  constructor
  · decide
  · decide

/-- C1 (amended): on every tick of every run, the occupancy list holds
at most `spaceCount + 1` cars and the queue length is non-negative. -/
theorem c1_occupancy_queue_invariant (cfg : Config) (draws : Nat → Nat) (n : Nat) :
    (stateAt cfg draws n).carsparked_q.length ≤ cfg.spaces + 1 ∧
    0 ≤ (stateAt cfg draws n).queue :=
  ⟨(inv0_stateAt cfg draws n).1, (inv0_stateAt cfg draws n).2.1⟩

/-! ## Claim C2

The spec claims admission happens iff `len(occupancy) < spaceCount`
before admission.  The code's gate is `size - 1 < spaces`
(i.e. `len <= spaceCount`), queueing only at `size - 1 == spaces`
(i.e. `len = spaceCount + 1`). -/

/-- C2, counterexample: in the run with `arrivalrate = 1`,
`servicetime = 3`, `spaces = 1` and every draw 1, the tick-2 arrival
sees occupancy length 1 = `spaceCount` (not `< spaceCount`), yet the
car is parked (length grows to 2) and nothing is queued. -/
theorem c2_counterexample :
    dOnes 2 ≤ (Config.mk 1 3 1).arrivalrate ∧
    (stateAt ⟨1, 3, 1⟩ dOnes 1).carsparked_q.length = (Config.mk 1 3 1).spaces ∧
    (stateAt ⟨1, 3, 1⟩ dOnes 2).carsparked_q.length = (Config.mk 1 3 1).spaces + 1 ∧
    (stateAt ⟨1, 3, 1⟩ dOnes 2).queue = 0 ∧
    (stateAt ⟨1, 3, 1⟩ dOnes 2).carsqueued = 0 := by
  refine ⟨by decide, by decide, by decide, by decide, by decide⟩

/-- C2 (amended): on an arrival tick `totalArrivals` is incremented;
the car is parked (a car with `serviceTime` appended) if and only if
`len(occupancy) - 1 < spaceCount` before admission (i.e.
`len <= spaceCount`, one car beyond the spec's gate), and
`queueLength` / `totalQueuedArrivals` are incremented if and only if
`len(occupancy) - 1 = spaceCount`; with `len(occupancy) - 1 >
spaceCount` only the error print runs and nothing but the arrival
counter changes; without an arrival the state is unchanged. -/
theorem c2_arrival_gate (cfg : Config) (st : SimState) (d : Nat) :
    (d ≤ cfg.arrivalrate →
      (arrivePhase cfg st d).count_arrivals = st.count_arrivals + 1 ∧
      ((st.carsparked_q.length : Int) - 1 < (cfg.spaces : Int) →
        arrivePhase cfg st d =
          { st with
            count_arrivals := st.count_arrivals + 1
            carsparked_q := st.carsparked_q ++ [(cfg.servicetime : Int)] }) ∧
      ((st.carsparked_q.length : Int) - 1 = (cfg.spaces : Int) →
        arrivePhase cfg st d =
          { st with
            count_arrivals := st.count_arrivals + 1
            queue := st.queue + 1
            carsqueued := st.carsqueued + 1 }) ∧
      ((cfg.spaces : Int) < (st.carsparked_q.length : Int) - 1 →
        arrivePhase cfg st d =
          { st with count_arrivals := st.count_arrivals + 1 }) ∧
      ((arrivePhase cfg st d).carsparked_q
          = st.carsparked_q ++ [(cfg.servicetime : Int)] ↔
        (st.carsparked_q.length : Int) - 1 < (cfg.spaces : Int)) ∧
      (((arrivePhase cfg st d).queue = st.queue + 1 ∧
          (arrivePhase cfg st d).carsqueued = st.carsqueued + 1) ↔
        (st.carsparked_q.length : Int) - 1 = (cfg.spaces : Int))) ∧
    (¬ d ≤ cfg.arrivalrate → arrivePhase cfg st d = st) := by
  constructor
  · intro hd
    by_cases hlt : (st.carsparked_q.length : Int) - 1 < (cfg.spaces : Int)
    · have hrec := arrivePhase_park cfg st d hd hlt
      have hca : (arrivePhase cfg st d).count_arrivals
          = st.count_arrivals + 1 := by rw [hrec]
      have hL : (arrivePhase cfg st d).carsparked_q
          = st.carsparked_q ++ [(cfg.servicetime : Int)] := by rw [hrec]
      have hq : (arrivePhase cfg st d).queue = st.queue := by rw [hrec]
      refine ⟨hca, fun _ => hrec, fun hc => absurd hc (by omega),
        fun hc => absurd hc (by omega), ⟨fun _ => hlt, fun _ => hL⟩, ?_⟩
      constructor
      · rintro ⟨hq1, -⟩
        rw [hq] at hq1
        omega
      · intro hc
        exact absurd hc (by omega)
    · by_cases heq : (st.carsparked_q.length : Int) - 1 = (cfg.spaces : Int)
      · have hrec := arrivePhase_queued cfg st d hd heq
        have hca : (arrivePhase cfg st d).count_arrivals
            = st.count_arrivals + 1 := by rw [hrec]
        have hL : (arrivePhase cfg st d).carsparked_q
            = st.carsparked_q := by rw [hrec]
        have hq : (arrivePhase cfg st d).queue = st.queue + 1 := by rw [hrec]
        have hcq : (arrivePhase cfg st d).carsqueued
            = st.carsqueued + 1 := by rw [hrec]
        refine ⟨hca, fun hc => absurd hc (by omega), fun _ => hrec,
          fun hc => absurd hc (by omega), ?_,
          ⟨fun _ => heq, fun _ => ⟨hq, hcq⟩⟩⟩
        constructor
        · intro hL2
          rw [hL] at hL2
          have hlen := congrArg List.length hL2
          simp only [List.length_append, List.length_cons,
            List.length_nil] at hlen
          omega
        · intro hc
          exact absurd hc (by omega)
      · have hgt : (cfg.spaces : Int) < (st.carsparked_q.length : Int) - 1 := by
          omega
        have hrec := arrivePhase_error cfg st d hd hgt
        have hca : (arrivePhase cfg st d).count_arrivals
            = st.count_arrivals + 1 := by rw [hrec]
        have hL : (arrivePhase cfg st d).carsparked_q
            = st.carsparked_q := by rw [hrec]
        have hq : (arrivePhase cfg st d).queue = st.queue := by rw [hrec]
        refine ⟨hca, fun hc => absurd hc hlt, fun hc => absurd hc heq,
          fun _ => hrec, ?_, ?_⟩
        · constructor
          · intro hL2
            rw [hL] at hL2
            have hlen := congrArg List.length hL2
            simp only [List.length_append, List.length_cons,
              List.length_nil] at hlen
            omega
          · intro hc
            exact absurd hc hlt
        · constructor
          · rintro ⟨hq1, -⟩
            rw [hq] at hq1
            omega
          · intro hc
            exact absurd hc heq
  · intro hd
    exact arrivePhase_noarrival cfg st d hd

/-- C2, witness: the amended gate applied to the concrete tick-2
arrival of the counterexample run. -/
theorem c2_witness :
    (arrivePhase ⟨1, 3, 1⟩ (stateAt ⟨1, 3, 1⟩ dOnes 1) 1).count_arrivals
      = (stateAt ⟨1, 3, 1⟩ dOnes 1).count_arrivals + 1 :=
  ((c2_arrival_gate ⟨1, 3, 1⟩ (stateAt ⟨1, 3, 1⟩ dOnes 1) 1).1 (by decide)).1

/-! ## Claim C3

On reachable states the remaining times are pairwise distinct
(strictly increasing from the front), so no two cars ever reach 0 in
the same tick: the spec's tie-breaking clause is vacuous, the front
car is erased exactly in the tick its time reaches 0 (before it could
go negative), exactly one car departs in such a tick, and at most one
queued car is admitted, entering with the full `serviceTime`. -/

/-- C3: on every tick of every run with a positive service time, all
remaining times are at least 1 and strictly increasing from the front;
after the per-tick decrement no car other than the front can sit at 0
(simultaneous expirations never occur, so none are lost); when the
decremented front is 0 the age step removes exactly that car and
admits at most one queued car with full `serviceTime`; otherwise it
removes nothing. -/
theorem c3_departure_discipline (cfg : Config) (draws : Nat → Nat) (n : Nat)
    (hst : 1 ≤ cfg.servicetime) :
    (∀ x ∈ (stateAt cfg draws n).carsparked_q, 1 ≤ x) ∧
    (stateAt cfg draws n).carsparked_q.Pairwise (· < ·) ∧
    (∀ x ∈ ((stateAt cfg draws n).carsparked_q.map (fun y => y - 1)).tail,
      x ≠ 0) ∧
    (((stateAt cfg draws n).carsparked_q.map (fun y => y - 1)).head? = some 0 →
      (agePhase cfg.servicetime (samplePhase (stateAt cfg draws n))).carsparked_q
        = ((stateAt cfg draws n).carsparked_q.map (fun y => y - 1)).tail
            ++ (if 0 < (stateAt cfg draws n).queue
                then [(cfg.servicetime : Int)] else [])) ∧
    (¬ ((stateAt cfg draws n).carsparked_q.map (fun y => y - 1)).head? = some 0 →
      (agePhase cfg.servicetime (samplePhase (stateAt cfg draws n))).carsparked_q
        = (stateAt cfg draws n).carsparked_q.map (fun y => y - 1)) := by
  obtain ⟨hpair, helem⟩ := sorted3_stateAt cfg draws n hst
  set st := stateAt cfg draws n with hstdef
  refine ⟨fun x hx => (helem x hx).1, hpair, ?_, ?_, ?_⟩
  · intro x hx
    cases hL : st.carsparked_q with
    | nil =>
      rw [hL] at hx
      exact absurd hx (List.not_mem_nil x)
    | cons a rest =>
      rw [hL] at hx
      simp only [List.map_cons, List.tail_cons] at hx
      rw [List.mem_map] at hx
      obtain ⟨y, hy, hxy⟩ := hx
      have ha : a < y := by
        have hp := hpair
        rw [hL, List.pairwise_cons] at hp
        exact hp.1 y hy
      have h1 : 1 ≤ a := (helem a (by rw [hL]; exact List.mem_cons_self a rest)).1
      omega
  · intro hhead
    have hne : ¬ (samplePhase st).carsparked_q.isEmpty = true := by
      intro hcon
      have : st.carsparked_q = [] := by
        rw [← List.isEmpty_iff]
        exact hcon
      rw [this] at hhead
      simp at hhead
    by_cases hqpos : 0 < st.queue
    · rw [agePhase_expire_refill _ _ hne hhead hqpos, if_pos hqpos]
      rfl
    · rw [agePhase_expire_norefill _ _ hne hhead hqpos, if_neg hqpos,
        List.append_nil]
      rfl
  · intro hhead
    by_cases hne : (samplePhase st).carsparked_q.isEmpty = true
    · rw [agePhase_empty _ _ hne]
      have hnil : st.carsparked_q = [] := by
        rw [← List.isEmpty_iff]
        exact hne
      show st.carsparked_q = _
      rw [hnil]
      rfl
    · rw [agePhase_noexpire _ _ hne hhead]
      rfl

/-- C3, witness: the departure discipline instantiated on the concrete
run with `arrivalrate = 1`, `servicetime = 3`, `spaces = 1`, every
draw 1, at tick 3. -/
theorem c3_witness :
    (stateAt ⟨1, 3, 1⟩ dOnes 2).carsparked_q.Pairwise (· < ·) :=
  (c3_departure_discipline ⟨1, 3, 1⟩ dOnes 2 (by decide)).2.1

/-! ## Claim C6

The spec claims every histogram write stays below
`arrivalRate * (serviceTime / 600) + 200` for every draw sequence and
all positive inputs.  The queue index is the current queue length,
which is unbounded: with `arrivalrate = 1`, `servicetime = 600`,
`spaces = 1` and an arrival draw on every tick, the queue reaches the
bound 201 after 203 ticks, so the write of tick 204 is out of bounds.
The occupancy index, by contrast, never exceeds `spaceCount`. -/

theorem probeCondB_eq_false (i : Nat) (h : i < 396000) :
    probeCondB i = false := by
  unfold probeCondB
  by_cases hm : i % 36000 = 0
  · have h1 : ¬ (3600 * 100 < i) := by omega
    simp [h1]
  · simp [hm]

theorem stateAt_succ_noprobe (cfg : Config) (draws : Nat → Nat) (n : Nat)
    (h : n + 1 < 396000) :
    stateAt cfg draws (n + 1) = tickBody cfg (stateAt cfg draws n) (draws (n + 1)) := by
  have hp := probeCondB_eq_false (n + 1) h
  simp [stateAt, hp]

/-- Trajectory of the run with `arrivalrate = 1`, `servicetime = 600`,
`spaces = 1` and every draw 1: from tick 3 on, both spaces plus the
overflow slot are taken and the queue grows by one car per tick. -/
theorem c6_trajectory (n : Nat) (h2 : 2 ≤ n) (h : n ≤ 600) :
    (stateAt ⟨1, 600, 1⟩ dOnes n).carsparked_q
        = [(601 : Int) - (n : Int), (602 : Int) - (n : Int)] ∧
    (stateAt ⟨1, 600, 1⟩ dOnes n).queue = (n : Int) - 2 := by
  induction n, h2 using Nat.le_induction with
  | base => constructor <;> decide
  | succ n hn ih =>
    obtain ⟨ihL, ihq⟩ := ih (by omega)
    rw [stateAt_succ_noprobe ⟨1, 600, 1⟩ dOnes n (by omega)]
    set st := stateAt ⟨1, 600, 1⟩ dOnes n with hst
    have hne : ¬ (samplePhase st).carsparked_q.isEmpty = true := by
      rw [samplePhase_carsparked, ihL]
      simp
    have hhead : ¬ ((samplePhase st).carsparked_q.map (fun x => x - 1)).head?
        = some 0 := by
      rw [samplePhase_carsparked, ihL]
      simp only [List.map_cons, List.head?_cons, Option.some.injEq]
      omega
    unfold tickBody
    rw [agePhase_noexpire _ _ hne hhead]
    have hL2 : ({ samplePhase st with
        carsparked_q := (samplePhase st).carsparked_q.map (fun x => x - 1) }
          : SimState).carsparked_q
        = [(600 : Int) - (n : Int), (601 : Int) - (n : Int)] := by
      show (samplePhase st).carsparked_q.map (fun x => x - 1) = _
      rw [samplePhase_carsparked, ihL]
      simp only [List.map_cons, List.map_nil, List.cons.injEq, and_true]
      constructor <;> ring
    have heq : ((({ samplePhase st with
        carsparked_q := (samplePhase st).carsparked_q.map (fun x => x - 1) }
          : SimState).carsparked_q.length : Int) - 1
        = ((Config.mk 1 600 1).spaces : Int)) := by
      rw [hL2]
      norm_num
    rw [arrivePhase_queued _ _ _ (by simp [dOnes]) heq]
    refine ⟨?_, ?_⟩
    · show (samplePhase st).carsparked_q.map (fun x => x - 1) = _
      rw [samplePhase_carsparked, ihL]
      simp only [List.map_cons, List.map_nil, List.cons.injEq, and_true]
      push_cast
      constructor <;> ring
    · show (samplePhase st).queue + 1 = _
      rw [samplePhase_queue, ihq]
      push_cast
      ring

/-- C6, counterexample: with `arrivalrate = 1`, `servicetime = 600`,
`spaces = 1` and every draw 1, the queue length entering tick 204 is
201, so the queue-histogram write of tick 204 uses index 201, which is
not below the allocated bound `1 * (600 / 600) + 200 = 201`. -/
theorem c6_counterexample :
    histBound ⟨1, 600, 1⟩ = 201 ∧
    sampleIdxQueue (stateAt ⟨1, 600, 1⟩ dOnes 203) = 201 ∧
    ¬ (sampleIdxQueue (stateAt ⟨1, 600, 1⟩ dOnes 203) < histBound ⟨1, 600, 1⟩) := by
  have hq := (c6_trajectory 203 (by omega) (by omega)).2
  have hidx : sampleIdxQueue (stateAt ⟨1, 600, 1⟩ dOnes 203) = 201 := by
    unfold sampleIdxQueue
    rw [hq]
    decide
  refine ⟨by decide, hidx, ?_⟩
  rw [hidx]
  decide

/-- C6 (amended): every occupancy-histogram write uses an index of at
most `spaceCount`, hence strictly below the allocated bound whenever
`spaceCount < arrivalRate * (serviceTime / 600) + 200`; the
queue-histogram index equals the current queue length, which for some
positive inputs and draw sequences reaches the bound, so the universal
in-bounds claim fails for the queue histogram. -/
theorem c6_occ_write_bound (cfg : Config) (draws : Nat → Nat) (n : Nat) :
    sampleIdxOcc (stateAt cfg draws n) ≤ cfg.spaces ∧
    (cfg.spaces < histBound cfg →
      sampleIdxOcc (stateAt cfg draws n) < histBound cfg) := by
  have h := sampleIdxOcc_le cfg _ (inv0_stateAt cfg draws n).1
  exact ⟨h, fun hb => lt_of_le_of_lt h hb⟩

/-- C6, witness: the occupancy write of tick 3 of the counterexample
run of C1 is in bounds because `spaces = 1 < 200`. -/
theorem c6_witness :
    sampleIdxOcc (stateAt ⟨1, 3, 1⟩ dOnes 2) < histBound ⟨1, 3, 1⟩ :=
  (c6_occ_write_bound ⟨1, 3, 1⟩ dOnes 2).2 (by decide)

/-! ## Claim C9

`percentageoftime` returns the first index whose entry reaches the
percentage, and `-1` when none does.  The returned value is not
monotone across the found/not-found boundary because the sentinel `-1`
compares below every index; it is monotone whenever the larger
percentile is found. -/

/-- C9, counterexample: on the table `[50]`, percentile 10 returns
index 0 but percentile 60 returns the sentinel `-1 < 0`, so the
returned index is not monotonically non-decreasing in the requested
percentile. -/
theorem c9_counterexample :
    (10 : Int) ≤ 60 ∧
    ¬ (percentageoftime 10 [50] ≤ percentageoftime 60 [50]) := by
  refine ⟨by decide, by decide⟩

/-- C9 (amended): for a fixed table, `percentageoftime` is
monotonically non-decreasing in the requested percentile whenever the
larger percentile is found (returns something other than the `-1`
sentinel). -/
theorem percentageoftime_of_some (p : Int) (l : List Int) (m : Nat)
    (hm : firstGE p l = some m) : percentageoftime p l = (m : Int) := by
  unfold percentageoftime
  rw [hm]

theorem percentageoftime_of_none (p : Int) (l : List Int)
    (hm : firstGE p l = none) : percentageoftime p l = -1 := by
  unfold percentageoftime
  rw [hm]

theorem firstGE_cons_le (p v : Int) (rest : List Int) (h : p ≤ v) :
    firstGE p (v :: rest) = some 0 := by
  show (if p ≤ v then some 0 else (firstGE p rest).map (fun i => i + 1)) = some 0
  rw [if_pos h]

theorem firstGE_cons_gt (p v : Int) (rest : List Int) (h : ¬ p ≤ v) :
    firstGE p (v :: rest) = (firstGE p rest).map (fun i => i + 1) := by
  show (if p ≤ v then some 0 else (firstGE p rest).map (fun i => i + 1))
      = (firstGE p rest).map (fun i => i + 1)
  rw [if_neg h]

theorem c9_monotone (p q : Int) (table : List Int) (hpq : p ≤ q)
    (hfound : percentageoftime q table ≠ -1) :
    percentageoftime p table ≤ percentageoftime q table := by
  induction table with
  | nil =>
    exact absurd (percentageoftime_of_none q [] rfl) hfound
  | cons v rest ih =>
    by_cases hqv : q ≤ v
    · have hpv : p ≤ v := le_trans hpq hqv
      rw [percentageoftime_of_some p _ 0 (firstGE_cons_le p v rest hpv),
        percentageoftime_of_some q _ 0 (firstGE_cons_le q v rest hqv)]
    · rcases hm : firstGE q rest with _ | m
      · exfalso
        apply hfound
        apply percentageoftime_of_none
        rw [firstGE_cons_gt q v rest hqv, hm]
        rfl
      · have hqcons : percentageoftime q (v :: rest) = ((m : Int) + 1) := by
          have : firstGE q (v :: rest) = some (m + 1) := by
            rw [firstGE_cons_gt q v rest hqv, hm]
            rfl
          rw [percentageoftime_of_some q _ (m + 1) this]
          push_cast
          ring
        by_cases hpv : p ≤ v
        · rw [percentageoftime_of_some p _ 0 (firstGE_cons_le p v rest hpv), hqcons]
          omega
        · have hq' : percentageoftime q rest ≠ -1 := by
            rw [percentageoftime_of_some q rest m hm]
            omega
          have ihr := ih hq'
          rw [percentageoftime_of_some q rest m hm] at ihr
          rcases hk : firstGE p rest with _ | k
          · have : percentageoftime p (v :: rest) = -1 := by
              apply percentageoftime_of_none
              rw [firstGE_cons_gt p v rest hpv, hk]
              rfl
            rw [this, hqcons]
            omega
          · have hpcons : percentageoftime p (v :: rest) = ((k : Int) + 1) := by
              have : firstGE p (v :: rest) = some (k + 1) := by
                rw [firstGE_cons_gt p v rest hpv, hk]
                rfl
              rw [percentageoftime_of_some p _ (k + 1) this]
              push_cast
              ring
            rw [percentageoftime_of_some p rest k hk] at ihr
            rw [hpcons, hqcons]
            omega

/-- C9, witness: monotonicity of the lookup on the concrete table
`[15, 30]` between percentiles 10 and 20. -/
theorem c9_witness :
    percentageoftime 10 [15, 30] ≤ percentageoftime 20 [15, 30] :=
  c9_monotone 10 20 [15, 30] (by decide) (by decide)

/-! ## Run characterisation

`runAux` visits exactly the states `stateAt 0, stateAt 1, ...` until
the first tick whose probe breaks; the break returns the entering
state untouched together with `hours = tick / 3600`. -/

theorem stopsAtB_succ (cfg : Config) (draws : Nat → Nat) (n : Nat) :
    stopsAtB cfg draws (n + 1)
      = (probeCondB (n + 1) && stopCheckB (stateAt cfg draws n) (n + 1)) := rfl

theorem stopsAtB_zero (cfg : Config) (draws : Nat → Nat) :
    stopsAtB cfg draws 0 = false := rfl

theorem runAux_advance (cfg : Config) (draws : Nat → Nat) (fuel i : Nat)
    (st : SimState)
    (h : ¬ (probeCondB i = true ∧ stopCheckB st i = true)) :
    runAux cfg draws (fuel + 1) i st
      = runAux cfg draws fuel (i + 1)
          (tickBody cfg
            (if probeCondB i && !stopCheckB st i then probeUpdate st else st)
            (draws i)) := by
  by_cases hp : probeCondB i = true
  · have hs : stopCheckB st i = false := by
      cases hsc : stopCheckB st i with
      | false => rfl
      | true => exact absurd ⟨hp, hsc⟩ h
    simp only [runAux, hp, hs]
    simp
  · have hp2 : probeCondB i = false := by
      cases hpc : probeCondB i with
      | false => rfl
      | true => exact absurd hpc hp
    simp only [runAux, hp2]
    simp

theorem runAux_run (cfg : Config) (draws : Nat → Nat) (s : Nat) (hs1 : 1 ≤ s)
    (hstop : stopsAtB cfg draws s = true)
    (hmin : ∀ j, 1 ≤ j → j < s → stopsAtB cfg draws j = false) :
    ∀ d i fuel, i + d = s → 1 ≤ i → d < fuel →
      runAux cfg draws fuel i (stateAt cfg draws (i - 1))
        = ⟨stateAt cfg draws (s - 1), (s : Rat) / 3600, some s⟩ := by
  intro d
  induction d with
  | zero =>
    intro i fuel his hi1 hdf
    obtain ⟨f2, rfl⟩ : ∃ f2, fuel = f2 + 1 := ⟨fuel - 1, by omega⟩
    have hi : i = s := by omega
    subst hi
    obtain ⟨n, rfl⟩ : ∃ n, i = n + 1 := ⟨i - 1, by omega⟩
    have h2 : probeCondB (n + 1) = true ∧
        stopCheckB (stateAt cfg draws n) (n + 1) = true := by
      have hh := hstop
      rw [stopsAtB_succ] at hh
      simpa using hh
    show runAux cfg draws (f2 + 1) (n + 1) (stateAt cfg draws (n + 1 - 1)) = _
    simp only [runAux, Nat.add_sub_cancel]
    rw [if_pos h2.1, if_pos h2.2]
  | succ d ih =>
    intro i fuel his hi1 hdf
    obtain ⟨f2, rfl⟩ : ∃ f2, fuel = f2 + 1 := ⟨fuel - 1, by omega⟩
    have hnostop : stopsAtB cfg draws i = false := hmin i hi1 (by omega)
    have hnostop2 : ¬ (probeCondB i = true ∧
        stopCheckB (stateAt cfg draws (i - 1)) i = true) := by
      rintro ⟨h1, h2⟩
      obtain ⟨m, rfl⟩ : ∃ m, i = m + 1 := ⟨i - 1, by omega⟩
      rw [stopsAtB_succ] at hnostop
      rw [Nat.add_sub_cancel] at h2
      rw [h1, h2] at hnostop
      simp at hnostop
    rw [runAux_advance cfg draws f2 i _ hnostop2]
    have hstep : tickBody cfg
        (if probeCondB i && !stopCheckB (stateAt cfg draws (i - 1)) i
          then probeUpdate (stateAt cfg draws (i - 1))
          else stateAt cfg draws (i - 1))
        (draws i) = stateAt cfg draws i := by
      obtain ⟨m, rfl⟩ : ∃ m, i = m + 1 := ⟨i - 1, by omega⟩
      rw [Nat.add_sub_cancel]
      rfl
    rw [hstep]
    exact ih (i + 1) f2 (by omega) (by omega) (by omega)

theorem modelrun_eq_of_stops (cfg : Config) (draws : Nat → Nat) (s : Nat)
    (hs1 : 1 ≤ s) (hstop : stopsAtB cfg draws s = true)
    (hmin : ∀ j, 1 ≤ j → j < s → stopsAtB cfg draws j = false)
    (hfuel : s ≤ 10000 * 3600) :
    modelrun cfg draws
      = ⟨stateAt cfg draws (s - 1), (s : Rat) / 3600, some s⟩ := by
  unfold modelrun
  have h := runAux_run cfg draws s hs1 hstop hmin (s - 1) 1 (10000 * 3600)
    (by omega) (le_refl 1) (by omega)
  exact h

theorem stopsAtB_cap (cfg : Config) (draws : Nat → Nat) :
    stopsAtB cfg draws (3000 * 3600) = true := by
  have h1 : (3000 * 3600 : Nat) = 10799999 + 1 := by norm_num
  rw [h1, stopsAtB_succ]
  have hp : probeCondB (10799999 + 1) = true := by decide
  rw [hp, Bool.true_and]
  unfold stopCheckB
  have hd : decide (10799999 + 1 = 3000 * 3600) = true := by decide
  rw [hd, Bool.or_true]

/-! ## Claim C5

The loop always breaks: the cap tick `3000 * 3600` is a probe tick at
which the break condition holds unconditionally, so the loop never
runs past it, and the `hours == 3000` test of the report singles out
exactly the runs that stopped at the cap tick. -/

/-- C5: for every configuration and every draw sequence the loop stops
at some tick `s ≤ 3000 * 3600` (termination at the 3000-hour cap at
the latest), and the "stability not found" cap report is produced
exactly when the stop happened at the cap tick, distinguishing a
cap-stop from an earlier convergence stop. -/
theorem c5_termination_and_cap_report (cfg : Config) (draws : Nat → Nat) :
    ∃ s, (modelrun cfg draws).stopTick = some s ∧ 1 ≤ s ∧ s ≤ 3000 * 3600 ∧
      (modelrun cfg draws).hours = (s : Rat) / 3600 ∧
      (capReportB (modelrun cfg draws) = true ↔ s = 3000 * 3600) := by
  have hex : ∃ s, stopsAtB cfg draws s = true :=
    ⟨3000 * 3600, stopsAtB_cap cfg draws⟩
  have hsP : stopsAtB cfg draws (Nat.find hex) = true := Nat.find_spec hex
  set s := Nat.find hex with hsdef
  have hmin : ∀ j, j < s → stopsAtB cfg draws j = false := by
    intro j hj
    have hnot := Nat.find_min hex hj
    cases h : stopsAtB cfg draws j with
    | false => rfl
    | true => exact absurd h hnot
  have hs1 : 1 ≤ s := by
    rcases Nat.eq_zero_or_pos s with h0 | h
    · rw [h0, stopsAtB_zero] at hsP
      exact absurd hsP (by simp)
    · exact h
  have hcap : s ≤ 3000 * 3600 := Nat.find_le (stopsAtB_cap cfg draws)
  have hrun := modelrun_eq_of_stops cfg draws s hs1 hsP
    (fun j _ h2 => hmin j h2) (by omega)
  refine ⟨s, by rw [hrun], hs1, hcap, by rw [hrun], ?_⟩
  rw [hrun]
  unfold capReportB
  constructor
  · intro h
    have hq : ((s : Rat) / 3600 = 3000) := of_decide_eq_true h
    have hq2 : (s : Rat) = 3000 * 3600 := by
      field_simp at hq
      linarith
    exact_mod_cast hq2
  · intro h
    rw [h]
    apply decide_eq_true
    push_cast
    norm_num

/-! ## Claim C10

The implicit claim matching the code: occupancy never exceeds
`spaceCount + 1`, at most one car is pushed per tick (a queued car can
only be admitted when the park is full at `spaceCount + 1`, which
blocks the arrival push of the same tick), every arrival on a full
park is queued, and the `size - 1 > spaces` error branch never runs. -/

/-- C10: on every tick of every run, occupancy holds at most
`spaceCount + 1` cars, at most one car is pushed into the occupancy
list, an arrival finding the post-age occupancy at `spaceCount + 1` is
queued rather than parked, and the `"More cars than spaces allowed!"`
error branch is not taken. -/
theorem c10_capacity_safety (cfg : Config) (draws : Nat → Nat) (n d : Nat) :
    (stateAt cfg draws n).carsparked_q.length ≤ cfg.spaces + 1 ∧
    tickPushes cfg (stateAt cfg draws n) d ≤ 1 ∧
    errorBranchB cfg
      (agePhase cfg.servicetime (samplePhase (stateAt cfg draws n))) d = false ∧
    ((agePhase cfg.servicetime (samplePhase (stateAt cfg draws n))).carsparked_q.length
        = cfg.spaces + 1 →
      d ≤ cfg.arrivalrate →
      arriveQueueB cfg
        (agePhase cfg.servicetime (samplePhase (stateAt cfg draws n))) d = true ∧
      arrivePushB cfg
        (agePhase cfg.servicetime (samplePhase (stateAt cfg draws n))) d = false) := by
  obtain ⟨hlen, hq, hlink⟩ := inv0_stateAt cfg draws n
  have hinv2 := inv0_agePhase cfg cfg.servicetime _
    (inv0_samplePhase cfg _ (inv0_stateAt cfg draws n))
  set st := stateAt cfg draws n with hstdef
  set st2 := agePhase cfg.servicetime (samplePhase st) with hst2def
  obtain ⟨hlen2, -, -⟩ := hinv2
  refine ⟨hlen, ?_, ?_, ?_⟩
  · unfold tickPushes
    by_cases hage : agePushB st = true
    · have hparts := hage
      unfold agePushB at hparts
      simp at hparts
      obtain ⟨⟨hne0, hhead0⟩, hqpos⟩ := hparts
      have hne : ¬ st.carsparked_q.isEmpty = true := by
        simpa [List.isEmpty_iff] using hne0
      have hhead : (st.carsparked_q.map (fun x => x - 1)).head? = some 0 := by
        obtain ⟨a, ha, ha2⟩ := hhead0
        rw [List.head?_map, ha]
        simp [ha2]
      have hfull : st.carsparked_q.length = cfg.spaces + 1 := hlink hqpos
      have hpos : 0 < st.carsparked_q.length := by omega
      have hL2 : st2.carsparked_q
          = (st.carsparked_q.map (fun x => x - 1)).tail
              ++ [(cfg.servicetime : Int)] := by
        rw [hst2def, agePhase_expire_refill cfg.servicetime (samplePhase st)
          hne hhead hqpos]
        rfl
      have hlen2full : st2.carsparked_q.length = cfg.spaces + 1 := by
        rw [hL2]
        simp only [List.length_append, List.length_tail, List.length_map,
          List.length_cons, List.length_nil]
        omega
      have hnpush : arrivePushB cfg st2 d = false := by
        unfold arrivePushB
        have hno : ¬ ((st2.carsparked_q.length : Int) - 1 < (cfg.spaces : Int)) := by
          rw [hlen2full]
          push_cast
          omega
        simp [hno]
      rw [hnpush, hage]
      simp
    · have hage2 : agePushB st = false := by
        simpa using hage
      rw [hage2]
      simp only [Bool.false_eq_true, if_false, Nat.zero_add]
      split <;> omega
  · unfold errorBranchB
    have hno : ¬ ((cfg.spaces : Int) < (st2.carsparked_q.length : Int) - 1) := by
      omega
    simp [hno]
  · intro hfull hd
    constructor
    · unfold arriveQueueB
      have heq2 : (st2.carsparked_q.length : Int) - 1 = (cfg.spaces : Int) := by
        rw [hfull]
        push_cast
        ring
      simp [hd, heq2]
    · unfold arrivePushB
      have hno : ¬ ((st2.carsparked_q.length : Int) - 1 < (cfg.spaces : Int)) := by
        rw [hfull]
        push_cast
        omega
      simp [hno]

/-! ## The zero-arrival run

With `arrivalrate = 0` and draws in `[1, 3600]` no arrival ever
happens; the ratio `carsqueued / count_arrivals` is the NaN of `0/0`
(modelled by `none`), every probe comparison is false, and the run
reaches the cap tick `3000 * 3600`. -/

theorem agePhase_queuetest (t : Nat) (st : SimState) :
    (agePhase t st).queuetest = st.queuetest := by
  unfold agePhase
  split_ifs <;> rfl

theorem arrivePhase_queuetest (cfg : Config) (st : SimState) (d : Nat) :
    (arrivePhase cfg st d).queuetest = st.queuetest := by
  unfold arrivePhase
  split_ifs <;> rfl

theorem tickBody_queuetest (cfg : Config) (st : SimState) (d : Nat) :
    (tickBody cfg st d).queuetest = st.queuetest := by
  unfold tickBody
  rw [arrivePhase_queuetest, agePhase_queuetest]
  rfl

theorem tickBody_zero (st sp : Nat) (x : Option Rat) (k d : Nat) (hd : 1 ≤ d) :
    tickBody ⟨0, st, sp⟩
      ⟨0, [], 0, 0, 0, x, zeroHist k, zeroHist k⟩ d
      = ⟨0, [], 0, 0, 0, x, zeroHist (k + 1), zeroHist (k + 1)⟩ := by
  unfold tickBody
  have hne : (samplePhase (⟨0, [], 0, 0, 0, x, zeroHist k, zeroHist k⟩
      : SimState)).carsparked_q.isEmpty = true := rfl
  rw [agePhase_empty _ _ hne]
  rw [arrivePhase_noarrival _ _ _ (by show ¬ d ≤ 0; omega)]
  show samplePhase _ = _
  unfold samplePhase
  ext j
  · rfl
  · rfl
  · rfl
  · rfl
  · show (0 : Int) + 0 = 0
    norm_num
  · rfl
  · show incAt (zeroHist k) (sampleIdxOcc _) j = zeroHist (k + 1) j
    have hidx : sampleIdxOcc (⟨0, [], 0, 0, 0, x, zeroHist k, zeroHist k⟩
        : SimState) = 0 := rfl
    rw [hidx]
    unfold incAt zeroHist
    by_cases hj : j = 0 <;> simp [hj]
  · show incAt (zeroHist k) (sampleIdxQueue _) j = zeroHist (k + 1) j
    have hidx : sampleIdxQueue (⟨0, [], 0, 0, 0, x, zeroHist k, zeroHist k⟩
        : SimState) = 0 := rfl
    rw [hidx]
    unfold incAt zeroHist
    by_cases hj : j = 0 <;> simp [hj]

theorem stopCheckB_zeroRun (m i : Nat) (hne : ¬ i = 3000 * 3600) :
    stopCheckB (zeroRunState m) i = false := by
  unfold stopCheckB
  have h1 : ratioOpt (zeroRunState m).carsqueued
      (zeroRunState m).count_arrivals = none := rfl
  rw [h1]
  have h2 : diffLt (zeroRunState m).queuetest none = false := by
    unfold diffLt
    cases (zeroRunState m).queuetest <;> rfl
  rw [h2]
  rw [decide_eq_false hne]
  rfl

theorem stateAt_zero_rate (st sp : Nat) (draws : Nat → Nat)
    (hdr : ∀ i, 1 ≤ draws i) :
    ∀ k, k ≤ 10799999 → stateAt ⟨0, st, sp⟩ draws k = zeroRunState k := by
  intro k
  induction k with
  | zero =>
    intro _
    show initState = zeroRunState 0
    unfold initState zeroRunState zeroHist
    rw [if_pos (by norm_num : (0 : Nat) < 396000)]
    ext j
    all_goals try rfl
    all_goals simp
  | succ k ih =>
    intro hk
    have ihk := ih (by omega)
    rw [stateAt_succ, ihk]
    by_cases hp : probeCondB (k + 1) = true
    · have hkp : 396000 ≤ k + 1 := by
        unfold probeCondB at hp
        simp only [Bool.and_eq_true, decide_eq_true_eq] at hp
        omega
      have hsc : stopCheckB (zeroRunState k) (k + 1) = false :=
        stopCheckB_zeroRun k (k + 1) (by omega)
      have hcond : (probeCondB (k + 1)
          && !stopCheckB (zeroRunState k) (k + 1)) = true := by
        rw [hp, hsc]
        rfl
      rw [if_pos hcond]
      have hpu : probeUpdate (zeroRunState k)
          = (⟨0, [], 0, 0, 0, none, zeroHist k, zeroHist k⟩ : SimState) := rfl
      rw [hpu, tickBody_zero st sp none k (draws (k + 1)) (hdr (k + 1))]
      show _ = zeroRunState (k + 1)
      unfold zeroRunState
      rw [if_neg (by omega : ¬ k + 1 < 396000)]
    · have hp2 : probeCondB (k + 1) = false := by
        cases hpc : probeCondB (k + 1) with
        | false => rfl
        | true => exact absurd hpc hp
      have hcond : (probeCondB (k + 1)
          && !stopCheckB (zeroRunState k) (k + 1)) = false := by
        rw [hp2]
        rfl
      rw [if_neg (by rw [hcond]; simp)]
      rw [show zeroRunState k
          = (⟨0, [], 0, 0, 0, if k < 396000 then some 0 else none,
              zeroHist k, zeroHist k⟩ : SimState) from rfl]
      rw [tickBody_zero st sp _ k (draws (k + 1)) (hdr (k + 1))]
      show _ = zeroRunState (k + 1)
      unfold zeroRunState
      have h396 : probeCondB 396000 = true := by decide
      by_cases hklt : k + 1 < 396000
      · rw [if_pos hklt, if_pos (by omega : k < 396000)]
      · have hkge : ¬ k < 396000 := by
          intro hcon
          have hke : k + 1 = 396000 := by omega
          rw [hke, h396] at hp2
          simp at hp2
        rw [if_neg hklt, if_neg hkge]

theorem stopsAtB_zero_rate (st sp : Nat) (draws : Nat → Nat)
    (hdr : ∀ i, 1 ≤ draws i) :
    ∀ j, 1 ≤ j → j < 3000 * 3600 → stopsAtB ⟨0, st, sp⟩ draws j = false := by
  intro j h1 h2
  obtain ⟨m, rfl⟩ : ∃ m, j = m + 1 := ⟨j - 1, by omega⟩
  rw [stopsAtB_succ]
  by_cases hp : probeCondB (m + 1) = true
  · rw [stateAt_zero_rate st sp draws hdr m (by omega)]
    rw [hp, stopCheckB_zeroRun m (m + 1) (by omega)]
    rfl
  · have hp2 : probeCondB (m + 1) = false := by
      cases hpc : probeCondB (m + 1) with
      | false => rfl
      | true => exact absurd hpc hp
    rw [hp2]
    rfl

theorem modelrun_zero (st sp : Nat) (draws : Nat → Nat)
    (hdr : ∀ i, 1 ≤ draws i) :
    modelrun ⟨0, st, sp⟩ draws
      = ⟨zeroRunState 10799999, ((3000 * 3600 : Nat) : Rat) / 3600,
          some (3000 * 3600)⟩ := by
  have hrun := modelrun_eq_of_stops ⟨0, st, sp⟩ draws (3000 * 3600)
    (by norm_num) (stopsAtB_cap _ _) (stopsAtB_zero_rate st sp draws hdr)
    (by norm_num)
  rw [hrun, show (3000 * 3600 - 1 : Nat) = 10799999 from by norm_num,
    stateAt_zero_rate st sp draws hdr 10799999 (by norm_num)]

theorem cumulAt_zeroHist (m j : Nat) : cumulAt (zeroHist m) j = m := by
  unfold cumulAt zeroHist
  rw [Finset.sum_ite_eq' (Finset.range (j + 1)) 0 (fun _ => m)]
  rw [if_pos (Finset.mem_range.mpr (by omega))]

theorem toPercents_zeroHist (m B D : Nat) (hD : 0 < D)
    (hpct : pctRound m D = 100) :
    toPercents (zeroHist m) B D = List.replicate B (100 : Int) := by
  unfold toPercents
  rw [if_pos hD]
  refine List.eq_replicate_iff.2 ⟨by simp, ?_⟩
  intro b hb
  rw [List.mem_map] at hb
  obtain ⟨j, hj, rfl⟩ := hb
  rw [cumulAt_zeroHist, hpct]
  norm_num

theorem percentageoftime_replicate100 (p : Int) (n : Nat) (hn : 0 < n)
    (h : p ≤ 100) :
    percentageoftime p (List.replicate n (100 : Int)) = 0 := by
  obtain ⟨m, rfl⟩ : ∃ m, n = m + 1 := ⟨n - 1, by omega⟩
  rw [List.replicate_succ]
  rw [percentageoftime_of_some p _ 0 (firstGE_cons_le p 100 _ h)]
  rfl

/-! ## Claim C8

With `arrivalrate = 0` there is never an arrival, so
`count_arrivals = 0` for the whole run; the C++ ratio
`0.0 / 0` is NaN (modelled by `none`), every probe comparison on it is
false, so the run terminates exactly at the cap tick `3000 * 3600`
without a division-by-zero crash and is reported as capped; both
histograms hold all their mass at index 0, every occupancy table entry
is `round(100 * 10799999 / 10800000) = 100`, and every percentile
lookup up to 100% returns index 0. -/

/-- C8: with `arrivalrate = 0` and any draw sequence from `[1, 3600]`,
`totalArrivals` stays 0, the run stops at the 3000-hour cap tick and
is reported as capped (the NaN ratio never compares below `1e-5`, so
the degenerate run is treated as non-convergent rather than
crashing), the occupancy percentage table is 100 at every index, and
every percentile lookup at or below 100 reports index 0. -/
theorem c8_zero_arrival_run (st sp : Nat) (draws : Nat → Nat)
    (hdr : ∀ i, 1 ≤ draws i) :
    (modelrun ⟨0, st, sp⟩ draws).final.count_arrivals = 0 ∧
    (modelrun ⟨0, st, sp⟩ draws).stopTick = some (3000 * 3600) ∧
    capReportB (modelrun ⟨0, st, sp⟩ draws) = true ∧
    occTable ⟨0, st, sp⟩ (modelrun ⟨0, st, sp⟩ draws)
      = List.replicate 200 (100 : Int) ∧
    (∀ p : Int, p ≤ 100 →
      percentageoftime p
        (occTable ⟨0, st, sp⟩ (modelrun ⟨0, st, sp⟩ draws)) = 0) := by
  have hrun := modelrun_zero st sp draws hdr
  have hhours : (((3000 * 3600 : Nat) : Rat) / 3600) = 3000 := by
    push_cast
    norm_num
  have htable : occTable ⟨0, st, sp⟩ (modelrun ⟨0, st, sp⟩ draws)
      = List.replicate 200 (100 : Int) := by
    rw [hrun]
    unfold occTable cyclecountOf
    show toPercents (zeroHist 10799999) (histBound ⟨0, st, sp⟩)
      ((Int.toNat ⌊((3000 * 3600 : Nat) : Rat) / 3600⌋) * 3600) = _
    rw [hhours]
    have hfl : (Int.toNat ⌊(3000 : Rat)⌋) = 3000 := by decide
    rw [hfl]
    have hB : histBound ⟨0, st, sp⟩ = 200 := by
      unfold histBound
      simp
    rw [hB]
    exact toPercents_zeroHist 10799999 200 (3000 * 3600) (by norm_num)
      (by decide)
  refine ⟨by rw [hrun]; rfl, by rw [hrun], ?_, htable, ?_⟩
  · rw [hrun]
    unfold capReportB
    apply decide_eq_true
    exact hhours
  · intro p hp
    rw [htable]
    exact percentageoftime_replicate100 p 200 (by norm_num) hp

/-- C8, witness: the zero-arrival run with the all-ones draw stream
and `servicetime = spaces = 1`. -/
theorem c8_witness :
    (modelrun ⟨0, 1, 1⟩ dOnes).final.count_arrivals = 0 ∧
    capReportB (modelrun ⟨0, 1, 1⟩ dOnes) = true :=
  ⟨(c8_zero_arrival_run 1 1 dOnes (fun _ => le_refl 1)).1,
   (c8_zero_arrival_run 1 1 dOnes (fun _ => le_refl 1)).2.2.1⟩

/-! ## Claim C4

The probe gate is exactly `i > 3600*100 && i % 36000 == 0`, and a
probe stops the run when the ratio difference is below `1e-5` **or**
the tick is `3000 * 3600`: at the cap tick the run stops even though
the difference condition fails (e.g. in the zero-arrival run, where
the comparison against the NaN ratio is false), and the previous
ratio is then not updated, contradicting the claim's "otherwise the
previous ratio is updated". -/

/-- C4, counterexample: in the zero-arrival run the tick `3000 * 3600`
is a probe at which the difference condition is false, yet the run
stops there (so "stops as stable exactly when the difference is below
1e-5, otherwise the previous ratio is updated" fails at this probe). -/
theorem c4_counterexample :
    probeCondB (3000 * 3600) = true ∧
    diffLt (stateAt ⟨0, 1, 1⟩ dOnes (3000 * 3600 - 1)).queuetest
      (ratioOpt (stateAt ⟨0, 1, 1⟩ dOnes (3000 * 3600 - 1)).carsqueued
        (stateAt ⟨0, 1, 1⟩ dOnes (3000 * 3600 - 1)).count_arrivals) = false ∧
    (modelrun ⟨0, 1, 1⟩ dOnes).stopTick = some (3000 * 3600) := by
  have hdr : ∀ i, 1 ≤ dOnes i := fun _ => le_refl 1
  have hs := stateAt_zero_rate 1 1 dOnes hdr (3000 * 3600 - 1) (by norm_num)
  refine ⟨by decide, ?_, ?_⟩
  · rw [hs]
    have h1 : ratioOpt (zeroRunState (3000 * 3600 - 1)).carsqueued
        (zeroRunState (3000 * 3600 - 1)).count_arrivals = none := rfl
    rw [h1]
    unfold diffLt
    cases (zeroRunState (3000 * 3600 - 1)).queuetest <;> rfl
  · rw [modelrun_zero 1 1 dOnes hdr]

/-- C4 (amended): the probe runs exactly on ticks `i` with
`i > 3600*100` and `i % 36000 == 0`; at such a tick the run stops iff
the ratio difference is below `1e-5` **or** `i = 3000 * 3600` (the cap
is tested inside the probe); a probe that does not stop updates the
previous ratio to the current one; and the run that first stops at `s`
records `hours = s / 3600`. -/
theorem c4_probe_gate (cfg : Config) (draws : Nat → Nat) (i : Nat) :
    (stopsAtB cfg draws i = true ↔
      (3600 * 100 < i ∧ i % 36000 = 0 ∧
        (diffLt (stateAt cfg draws (i - 1)).queuetest
            (ratioOpt (stateAt cfg draws (i - 1)).carsqueued
              (stateAt cfg draws (i - 1)).count_arrivals) = true
          ∨ i = 3000 * 3600))) ∧
    (probeCondB i = true → stopsAtB cfg draws i = false →
      (stateAt cfg draws i).queuetest
        = ratioOpt (stateAt cfg draws (i - 1)).carsqueued
            (stateAt cfg draws (i - 1)).count_arrivals) ∧
    (∀ s, 1 ≤ s → stopsAtB cfg draws s = true →
      (∀ j, 1 ≤ j → j < s → stopsAtB cfg draws j = false) →
      (modelrun cfg draws).hours = (s : Rat) / 3600 ∧
      (modelrun cfg draws).stopTick = some s) := by
  refine ⟨?_, ?_, ?_⟩
  · cases i with
    | zero =>
      rw [stopsAtB_zero]
      simp
    | succ n =>
      rw [stopsAtB_succ]
      unfold probeCondB stopCheckB
      simp only [Bool.and_eq_true, Bool.or_eq_true, decide_eq_true_eq,
        Nat.add_sub_cancel]
      constructor
      · rintro ⟨⟨h1, h2⟩, h3⟩
        exact ⟨h1, h2, h3⟩
      · rintro ⟨h1, h2, h3⟩
        exact ⟨⟨h1, h2⟩, h3⟩
  · intro hp hstop
    have hi1 : 1 ≤ i := by
      unfold probeCondB at hp
      simp only [Bool.and_eq_true, decide_eq_true_eq] at hp
      omega
    obtain ⟨m, rfl⟩ : ∃ m, i = m + 1 := ⟨i - 1, by omega⟩
    rw [stopsAtB_succ, hp, Bool.true_and] at hstop
    have hcond : (probeCondB (m + 1)
        && !stopCheckB (stateAt cfg draws m) (m + 1)) = true := by
      rw [hp, hstop]
      rfl
    rw [stateAt_succ, if_pos hcond, tickBody_queuetest]
    rw [Nat.add_sub_cancel]
    rfl
  · intro s hs1 hstop hmin
    have hcaple : s ≤ 3000 * 3600 := by
      by_contra hgt
      have := hmin (3000 * 3600) (by norm_num) (by omega)
      rw [stopsAtB_cap cfg draws] at this
      simp at this
    have hrun := modelrun_eq_of_stops cfg draws s hs1 hstop hmin (by omega)
    rw [hrun]
    exact ⟨rfl, rfl⟩

/-- C4, witness: in the zero-arrival run the first probe (tick 396000)
does not stop and stores the current (NaN) ratio in the previous-ratio
variable. -/
theorem c4_witness :
    (stateAt ⟨0, 1, 1⟩ dOnes 396000).queuetest
      = ratioOpt (stateAt ⟨0, 1, 1⟩ dOnes (396000 - 1)).carsqueued
          (stateAt ⟨0, 1, 1⟩ dOnes (396000 - 1)).count_arrivals :=
  (c4_probe_gate ⟨0, 1, 1⟩ dOnes 396000).2.1 (by decide)
    (stopsAtB_zero_rate 1 1 dOnes (fun _ => le_refl 1) 396000 (by norm_num)
      (by norm_num))

/-- C10, witness: in the concrete run with `arrivalrate = 1`,
`servicetime = 3`, `spaces = 1` and every draw 1, tick 3 finds the
post-age occupancy full at `spaceCount + 1 = 2` cars and the arrival
is queued, with at most one push in the tick. -/
theorem c10_witness :
    tickPushes ⟨1, 3, 1⟩ (stateAt ⟨1, 3, 1⟩ dOnes 2) 1 ≤ 1 ∧
    arriveQueueB ⟨1, 3, 1⟩
      (agePhase (Config.mk 1 3 1).servicetime
        (samplePhase (stateAt ⟨1, 3, 1⟩ dOnes 2))) 1 = true :=
  ⟨(c10_capacity_safety ⟨1, 3, 1⟩ dOnes 2 1).2.1,
   ((c10_capacity_safety ⟨1, 3, 1⟩ dOnes 2 1).2.2.2 (by decide) (by decide)).1⟩

/-! ## Histogram bookkeeping

One sample lands in each histogram per executed tick; the tick that
breaks the loop samples nothing.  As long as every write index stays
below `B`, the first `B` entries hold exactly one unit per executed
tick. -/

theorem agePhase_quhist (t : Nat) (st : SimState) :
    (agePhase t st).count_carsqueued_hist = st.count_carsqueued_hist := by
  unfold agePhase
  split_ifs <;> rfl

theorem agePhase_occhist (t : Nat) (st : SimState) :
    (agePhase t st).count_carsparked_hist = st.count_carsparked_hist := by
  unfold agePhase
  split_ifs <;> rfl

theorem arrivePhase_quhist (cfg : Config) (st : SimState) (d : Nat) :
    (arrivePhase cfg st d).count_carsqueued_hist = st.count_carsqueued_hist := by
  unfold arrivePhase
  split_ifs <;> rfl

theorem arrivePhase_occhist (cfg : Config) (st : SimState) (d : Nat) :
    (arrivePhase cfg st d).count_carsparked_hist
      = st.count_carsparked_hist := by
  unfold arrivePhase
  split_ifs <;> rfl

theorem tickBody_quhist (cfg : Config) (st : SimState) (d : Nat) :
    (tickBody cfg st d).count_carsqueued_hist
      = incAt st.count_carsqueued_hist (sampleIdxQueue st) := by
  unfold tickBody
  rw [arrivePhase_quhist, agePhase_quhist]
  rfl

theorem tickBody_occhist (cfg : Config) (st : SimState) (d : Nat) :
    (tickBody cfg st d).count_carsparked_hist
      = incAt st.count_carsparked_hist (sampleIdxOcc st) := by
  unfold tickBody
  rw [arrivePhase_occhist, agePhase_occhist]
  rfl

theorem histSum_incAt (h : Nat → Nat) (B idx : Nat) (hidx : idx < B) :
    histSum (incAt h idx) B = histSum h B + 1 := by
  unfold histSum incAt
  have hsplit : ∀ j ∈ Finset.range B,
      (if j = idx then h j + 1 else h j) = h j + (if j = idx then 1 else 0) := by
    intro j _
    split_ifs <;> omega
  rw [Finset.sum_congr rfl hsplit, Finset.sum_add_distrib]
  rw [Finset.sum_ite_eq' (Finset.range B) idx (fun _ => 1)]
  rw [if_pos (Finset.mem_range.mpr hidx)]

theorem histSum_stateAt_queue (cfg : Config) (draws : Nat → Nat) (B : Nat)
    (n : Nat)
    (hq : ∀ t, t < n → sampleIdxQueue (stateAt cfg draws t) < B) :
    histSum ((stateAt cfg draws n).count_carsqueued_hist) B = n := by
  induction n with
  | zero =>
    show histSum (fun _ => 0) B = 0
    unfold histSum
    simp
  | succ n ih =>
    rw [stateAt_succ]
    have hpre : ∀ st1, st1 = stateAt cfg draws n ∨
        st1 = probeUpdate (stateAt cfg draws n) →
        histSum ((tickBody cfg st1 (draws (n + 1))).count_carsqueued_hist) B
          = n + 1 := by
      intro st1 h1
      have hh : st1.count_carsqueued_hist
          = (stateAt cfg draws n).count_carsqueued_hist := by
        rcases h1 with h1 | h1
        · rw [h1]
        · rw [h1]
          rfl
      have hqi : sampleIdxQueue st1 = sampleIdxQueue (stateAt cfg draws n) := by
        rcases h1 with h1 | h1
        · rw [h1]
        · rw [h1]
          rfl
      rw [tickBody_quhist, hh, hqi,
        histSum_incAt _ B _ (hq n (by omega)),
        ih (fun t ht => hq t (by omega))]
    split
    · exact hpre _ (Or.inr rfl)
    · exact hpre _ (Or.inl rfl)

theorem histSum_stateAt_occ (cfg : Config) (draws : Nat → Nat) (B : Nat)
    (n : Nat)
    (ho : ∀ t, t < n → sampleIdxOcc (stateAt cfg draws t) < B) :
    histSum ((stateAt cfg draws n).count_carsparked_hist) B = n := by
  induction n with
  | zero =>
    show histSum (fun _ => 0) B = 0
    unfold histSum
    simp
  | succ n ih =>
    rw [stateAt_succ]
    have hpre : ∀ st1, st1 = stateAt cfg draws n ∨
        st1 = probeUpdate (stateAt cfg draws n) →
        histSum ((tickBody cfg st1 (draws (n + 1))).count_carsparked_hist) B
          = n + 1 := by
      intro st1 h1
      have hh : st1.count_carsparked_hist
          = (stateAt cfg draws n).count_carsparked_hist := by
        rcases h1 with h1 | h1
        · rw [h1]
        · rw [h1]
          rfl
      have hoi : sampleIdxOcc st1 = sampleIdxOcc (stateAt cfg draws n) := by
        rcases h1 with h1 | h1
        · rw [h1]
        · rw [h1]
          rfl
      rw [tickBody_occhist, hh, hoi,
        histSum_incAt _ B _ (ho n (by omega)),
        ih (fun t ht => ho t (by omega))]
    split
    · exact hpre _ (Or.inr rfl)
    · exact hpre _ (Or.inl rfl)

theorem cumulAt_mono (h : Nat → Nat) (j : Nat) :
    cumulAt h j ≤ cumulAt h (j + 1) := by
  unfold cumulAt
  exact Finset.sum_le_sum_of_subset (Finset.range_subset.mpr (by omega))

theorem cumulAt_last (h : Nat → Nat) (B : Nat) (hB : 1 ≤ B) :
    cumulAt h (B - 1) = histSum h B := by
  unfold cumulAt histSum
  rw [show B - 1 + 1 = B from by omega]

theorem stopsAtB_probe_facts (cfg : Config) (draws : Nat → Nat) (i : Nat)
    (h : stopsAtB cfg draws i = true) :
    3600 * 100 < i ∧ i % 36000 = 0 := by
  cases i with
  | zero => rw [stopsAtB_zero] at h; exact absurd h (by simp)
  | succ n =>
    rw [stopsAtB_succ] at h
    unfold probeCondB at h
    simp only [Bool.and_eq_true, decide_eq_true_eq] at h
    exact ⟨h.1.1, h.1.2⟩

/-! ## The all-arrivals concrete run of C7

With `arrivalrate = 3600` every draw is an arrival; `servicetime = 1`
retires each car on the following tick, so nothing ever queues, the
queued ratio at the first probe (tick 396000) is `0 / 395999 = 0`,
`|0 - 0| < 1e-5` holds and the run stops right there, having sampled
ticks 1..395999 only. -/

theorem tickBody_c7 (k : Nat) :
    tickBody ⟨3600, 1, 5⟩ (c7State k) 1 = c7State (k + 1) := by
  unfold tickBody
  have hne : ¬ (samplePhase (c7State k)).carsparked_q.isEmpty = true := by
    show ¬ false = true
    simp
  have hhead : ((samplePhase (c7State k)).carsparked_q.map
      (fun x => x - 1)).head? = some 0 := by
    show (([(1 : Int)]).map (fun x => x - 1)).head? = some 0
    decide
  have hqz : ¬ 0 < (samplePhase (c7State k)).queue := by
    show ¬ (0 : Int) < 0
    simp
  rw [agePhase_expire_norefill _ _ hne hhead hqz]
  have hd : (1 : Nat) ≤ (Config.mk 3600 1 5).arrivalrate := by decide
  have hlt : ((({ samplePhase (c7State k) with
      carsparked_q := ((samplePhase (c7State k)).carsparked_q.map
        (fun x => x - 1)).tail } : SimState).carsparked_q.length : Int) - 1
      < ((Config.mk 3600 1 5).spaces : Int)) := by
    show (((([(1 : Int)]).map (fun x => x - 1)).tail.length : Int) - 1
        < (5 : Int))
    decide
  rw [arrivePhase_park _ _ _ hd hlt]
  ext j
  · rfl
  · rfl
  · rfl
  · rfl
  · show (0 : Int) + 0 = 0
    norm_num
  · rfl
  · show incAt (zeroHist k) (sampleIdxOcc (c7State k)) j = zeroHist (k + 1) j
    have hidx : sampleIdxOcc (c7State k) = 0 := rfl
    rw [hidx]
    unfold incAt zeroHist
    by_cases hj : j = 0 <;> simp [hj]
  · show incAt (zeroHist k) (sampleIdxQueue (c7State k)) j = zeroHist (k + 1) j
    have hidx : sampleIdxQueue (c7State k) = 0 := rfl
    rw [hidx]
    unfold incAt zeroHist
    by_cases hj : j = 0 <;> simp [hj]

theorem stateAt_c7 (k : Nat) (h1 : 1 ≤ k) (h2 : k ≤ 395999) :
    stateAt ⟨3600, 1, 5⟩ dOnes k = c7State k := by
  induction k, h1 using Nat.le_induction with
  | base =>
    rw [stateAt_succ_noprobe ⟨3600, 1, 5⟩ dOnes 0 (by norm_num)]
    show tickBody ⟨3600, 1, 5⟩ initState 1 = c7State 1
    have hne : (samplePhase initState).carsparked_q.isEmpty = true := rfl
    unfold tickBody
    rw [agePhase_empty _ _ hne]
    have hd : (1 : Nat) ≤ (Config.mk 3600 1 5).arrivalrate := by decide
    have hlt : (((samplePhase initState).carsparked_q.length : Int) - 1
        < ((Config.mk 3600 1 5).spaces : Int)) := by decide
    rw [arrivePhase_park _ _ _ hd hlt]
    ext j
    · rfl
    · rfl
    · rfl
    · rfl
    · show (0 : Int) + 0 = 0
      norm_num
    · rfl
    · show incAt (fun _ => 0) (sampleIdxOcc initState) j = zeroHist 1 j
      have hidx : sampleIdxOcc initState = 0 := by decide
      rw [hidx]
      unfold incAt zeroHist
      by_cases hj : j = 0 <;> simp [hj]
    · show incAt (fun _ => 0) (sampleIdxQueue initState) j = zeroHist 1 j
      have hidx : sampleIdxQueue initState = 0 := by decide
      rw [hidx]
      unfold incAt zeroHist
      by_cases hj : j = 0 <;> simp [hj]
  | succ k hk ih =>
    rw [stateAt_succ_noprobe ⟨3600, 1, 5⟩ dOnes k (by omega), ih (by omega)]
    exact tickBody_c7 k

theorem stopsAtB_c7_396000 :
    stopsAtB ⟨3600, 1, 5⟩ dOnes 396000 = true := by
  have h1 : (396000 : Nat) = 395999 + 1 := by norm_num
  rw [h1, stopsAtB_succ, stateAt_c7 395999 (by norm_num) (le_refl _)]
  have hp : probeCondB (395999 + 1) = true := by decide
  rw [hp, Bool.true_and]
  unfold stopCheckB
  have hdiff : diffLt (c7State 395999).queuetest
      (ratioOpt (c7State 395999).carsqueued
        (c7State 395999).count_arrivals) = true := by
    show diffLt (some 0) (ratioOpt 0 395999) = true
    unfold ratioOpt
    rw [if_neg (by norm_num)]
    unfold diffLt
    apply decide_eq_true
    norm_num
  rw [hdiff, Bool.true_or]

theorem stopsAtB_c7_before (j : Nat) (h1 : 1 ≤ j) (h2 : j < 396000) :
    stopsAtB ⟨3600, 1, 5⟩ dOnes j = false := by
  obtain ⟨m, rfl⟩ : ∃ m, j = m + 1 := ⟨j - 1, by omega⟩
  rw [stopsAtB_succ, probeCondB_eq_false (m + 1) (by omega)]
  rfl

theorem modelrun_c7 :
    modelrun ⟨3600, 1, 5⟩ dOnes
      = ⟨c7State 395999, ((396000 : Nat) : Rat) / 3600, some 396000⟩ := by
  have hrun := modelrun_eq_of_stops ⟨3600, 1, 5⟩ dOnes 396000 (by norm_num)
    stopsAtB_c7_396000 (fun j hj1 hj2 => stopsAtB_c7_before j hj1 hj2)
    (by norm_num)
  rw [hrun, show (396000 - 1 : Nat) = 395999 from by norm_num,
    stateAt_c7 395999 (by norm_num) (le_refl _)]

/-! ## Claim C7

After `partial_sum` the cumulative values are indeed non-decreasing,
but the final cumulative entry is the number of *sampled* ticks, which
is one less than the `elapsedHours * 3600` the program (and the spec)
use as the total elapsed tick count: the tick that breaks the loop
does so before the sampling step.  The all-arrivals run stops at tick
396000 = 110 hours having sampled only 395999 ticks. -/

/-- C7, counterexample: the run with `arrivalrate = 3600`,
`servicetime = 1`, `spaces = 5` and every draw 1 stops at 110 hours
(396000 ticks as the program counts elapsed ticks), but the final
cumulative entry of the queue histogram is 395999, not 396000. -/
theorem c7_counterexample :
    (modelrun ⟨3600, 1, 5⟩ dOnes).hours = 110 ∧
    cyclecountOf (modelrun ⟨3600, 1, 5⟩ dOnes) * 3600 = 396000 ∧
    histBound ⟨3600, 1, 5⟩ = 200 ∧
    cumulAt ((modelrun ⟨3600, 1, 5⟩ dOnes).final.count_carsqueued_hist)
      (histBound ⟨3600, 1, 5⟩ - 1) = 395999 ∧
    (395999 : Nat) ≠ 396000 := by
  have hhours : (((396000 : Nat) : Rat) / 3600) = 110 := by
    push_cast
    norm_num
  refine ⟨?_, ?_, by decide, ?_, by norm_num⟩
  · rw [modelrun_c7]
    exact hhours
  · rw [modelrun_c7]
    unfold cyclecountOf
    show (Int.toNat ⌊((396000 : Nat) : Rat) / 3600⌋) * 3600 = 396000
    rw [hhours]
    decide
  · rw [modelrun_c7]
    show cumulAt (zeroHist 395999) (histBound ⟨3600, 1, 5⟩ - 1) = 395999
    rw [cumulAt_zeroHist]

/-- C7 (amended): after aggregation both cumulative histograms are
non-decreasing in the index; provided every write index stayed below
the allocated bound, the final cumulative entry of each histogram
equals the number of sampled ticks `s - 1`, which is one less than the
`elapsedHours * 3600` the program uses as total elapsed ticks (the
breaking tick `s` samples nothing). -/
theorem c7_cumulative_histograms (cfg : Config) (draws : Nat → Nat) (s : Nat)
    (hs1 : 1 ≤ s) (hstop : stopsAtB cfg draws s = true)
    (hmin : ∀ j, 1 ≤ j → j < s → stopsAtB cfg draws j = false)
    (hqb : ∀ t, t < s - 1 → sampleIdxQueue (stateAt cfg draws t) < histBound cfg)
    (hob : ∀ t, t < s - 1 → sampleIdxOcc (stateAt cfg draws t) < histBound cfg) :
    (∀ j, cumulAt ((modelrun cfg draws).final.count_carsqueued_hist) j
        ≤ cumulAt ((modelrun cfg draws).final.count_carsqueued_hist) (j + 1)) ∧
    (∀ j, cumulAt ((modelrun cfg draws).final.count_carsparked_hist) j
        ≤ cumulAt ((modelrun cfg draws).final.count_carsparked_hist) (j + 1)) ∧
    cumulAt ((modelrun cfg draws).final.count_carsqueued_hist)
      (histBound cfg - 1) = s - 1 ∧
    cumulAt ((modelrun cfg draws).final.count_carsparked_hist)
      (histBound cfg - 1) = s - 1 ∧
    cyclecountOf (modelrun cfg draws) * 3600 = s := by
  have hcaple : s ≤ 3000 * 3600 := by
    by_contra hgt
    have hcontra := hmin (3000 * 3600) (by norm_num) (by omega)
    rw [stopsAtB_cap cfg draws] at hcontra
    simp at hcontra
  have hrun := modelrun_eq_of_stops cfg draws s hs1 hstop hmin (by omega)
  have hB : 1 ≤ histBound cfg := by
    unfold histBound
    omega
  have hmod : s % 36000 = 0 := (stopsAtB_probe_facts cfg draws s hstop).2
  obtain ⟨m, hm⟩ : ∃ m, s = 3600 * m := ⟨s / 3600, by omega⟩
  rw [hrun]
  refine ⟨fun j => cumulAt_mono _ j, fun j => cumulAt_mono _ j, ?_, ?_, ?_⟩
  · rw [cumulAt_last _ _ hB]
    exact histSum_stateAt_queue cfg draws (histBound cfg) (s - 1) hqb
  · rw [cumulAt_last _ _ hB]
    exact histSum_stateAt_occ cfg draws (histBound cfg) (s - 1) hob
  · unfold cyclecountOf
    show (Int.toNat ⌊((s : Nat) : Rat) / 3600⌋) * 3600 = s
    rw [hm]
    have hcast : (((3600 * m : Nat) : Rat)) / 3600 = (m : Rat) := by
      push_cast
      field_simp
    rw [hcast]
    have hfl : ⌊(m : Rat)⌋ = (m : Int) := by
      exact_mod_cast Int.floor_natCast m
    rw [hfl]
    simp [Nat.mul_comm]

/-- C7, witness: the amended statement applied to the all-arrivals
run, whose writes all land at index 0 within the bound 200. -/
theorem c7_witness :
    cumulAt ((modelrun ⟨3600, 1, 5⟩ dOnes).final.count_carsqueued_hist)
      (histBound ⟨3600, 1, 5⟩ - 1) = 396000 - 1 :=
  (c7_cumulative_histograms ⟨3600, 1, 5⟩ dOnes 396000 (by norm_num)
    stopsAtB_c7_396000 (fun j h1 h2 => stopsAtB_c7_before j h1 h2)
    (fun t ht => by
      cases t with
      | zero => decide
      | succ m =>
        rw [stateAt_c7 (m + 1) (by omega) (by omega)]
        show (0 : Nat) < histBound ⟨3600, 1, 5⟩
        decide)
    (fun t ht => by
      cases t with
      | zero => decide
      | succ m =>
        rw [stateAt_c7 (m + 1) (by omega) (by omega)]
        show (0 : Nat) < histBound ⟨3600, 1, 5⟩
        decide)).2.2.1

end Carpark
